import Mathlib

/-!
ccwc (challenge-1): a word-count utility

A shallow embedding of `src/challenge-1/ccwc.go` and of the Go library
functions it calls (`bytes.Runes`, `bytes.Fields`, `utf8.DecodeRune`,
`unicode.IsSpace`, `fmt.Printf`), followed by theorems about them.

Conventions of the embedding.

* A Go `string` that reaches the program as a command-line token is a Lean
  `String` (tokens are taken to be valid UTF-8); text written to standard
  output is accumulated in a `String`.
* A byte buffer (`[]byte`) is a `List Nat`; a byte is a natural number below
  256.  All functions are total on `List Nat`, a value of 256 or more is
  treated as the tables of the Go library treat a byte outside every range.
* Bit operations of the Go library on bytes are written arithmetically:
  `x & 7` is `x % 8`, `x >> 4` is `x / 16`, `x & 0x3F` is `x % 64`,
  `x << 6` is `x * 64`, and the bitwise or of disjoint bit fields is `+`.
* A function that can fail returns `Except String _`, the string being the
  text of the Go `error`.
-/

namespace Ccwc

/-! ## Data model -/

deriving instance DecidableEq for Except

/-- The Go `config` struct (ccwc.go, lines 45-52). -/
structure config where
  filePath : String
  printManual : Bool
  printBytes : Bool
  printChars : Bool
  printWords : Bool
  printLines : Bool
  deriving DecidableEq, Repr

/-- The zero value `config{}` (ccwc.go, line 55). -/
def config.zero : config :=
  ⟨"", false, false, false, false, false⟩

/-! ## parseArgs -/

/-- The text of the error of ccwc.go line 58. -/
def errEmptyArgs : String := "include at least one argument"

/-- The text of the error of ccwc.go line 75, built by `fmt.Sprintf` with the
offending token as its `%s` operand. -/
def errMultiple (arg : String) : String :=
  "multiple filenames provided or unrecognized argument: " ++ arg

/-- The text of the error of ccwc.go line 82. -/
def errConflict : String :=
  "usage of \"-h\" or \"--help\" with other flags is not permitted"

/-- One iteration of the `switch arg` of ccwc.go lines 62-78: the updated
configuration, or the error of the `default` case. -/
def parseStep (c : config) (arg : String) : Except String config :=
  if arg = "-h" ∨ arg = "--help" then .ok { c with printManual := true }
  else if arg = "-c" ∨ arg = "--bytes" then .ok { c with printBytes := true }
  else if arg = "-m" ∨ arg = "--chars" then .ok { c with printChars := true }
  else if arg = "-w" ∨ arg = "--words" then .ok { c with printWords := true }
  else if arg = "-l" ∨ arg = "--lines" then .ok { c with printLines := true }
  else if c.filePath ≠ "" then .error (errMultiple arg)
  else .ok { c with filePath := arg }

/-- The `for _, arg := range args` loop of ccwc.go lines 61-79. -/
def parseLoop (c : config) : List String → Except String config
  | [] => .ok c
  | arg :: rest =>
    match parseStep c arg with
    | .error e => .error e
    | .ok c1 => parseLoop c1 rest

/-- The checks after the loop, ccwc.go lines 81-92. -/
def parseFinish (c : config) : Except String config :=
  if c.printManual && (c.printBytes || c.printChars || c.printWords || c.printLines) then
    .error errConflict
  else if !c.printManual && !c.printBytes && !c.printChars && !c.printWords && !c.printLines then
    .ok { c with printBytes := true, printChars := true, printWords := true, printLines := true }
  else .ok c

/-- The Go function `parseArgs` (ccwc.go, lines 54-93). -/
def parseArgs (args : List String) : Except String config :=
  if args.length = 0 then .error errEmptyArgs
  else
    match parseLoop config.zero args with
    | .error e => .error e
    | .ok c => parseFinish c

/-! ## The Go library: UTF-8 decoding (package unicode/utf8) -/

/-- The constant `utf8.RuneError`, U+FFFD. -/
def RuneError : Nat := 0xFFFD

/-- The constant `utf8.RuneSelf`. -/
def RuneSelf : Nat := 0x80

/-- The table `utf8.first`: information about the first byte of an encoding.
`0xF0` is `as` (ASCII), `0xF1` is `xx` (invalid), the other values hold the
size in the low three bits and the index of the accept range in the high
four. -/
def first (b : Nat) : Nat :=
  if b < 0x80 then 0xF0
  else if b < 0xC2 then 0xF1
  else if b < 0xE0 then 0x02
  else if b = 0xE0 then 0x13
  else if b < 0xED then 0x03
  else if b = 0xED then 0x23
  else if b < 0xF0 then 0x03
  else if b = 0xF0 then 0x34
  else if b < 0xF4 then 0x04
  else if b = 0xF4 then 0x44
  else 0xF1

/-- The table `utf8.acceptRanges`: the lowest and the highest value allowed
for the second byte. Entries 5 to 15 of the Go array are zero. -/
def acceptRanges (k : Nat) : Nat × Nat :=
  if k = 0 then (0x80, 0xBF)
  else if k = 1 then (0xA0, 0xBF)
  else if k = 2 then (0x80, 0x9F)
  else if k = 3 then (0x90, 0xBF)
  else if k = 4 then (0x80, 0x8F)
  else (0, 0)

/-- The Go function `utf8.DecodeRune`: the rune at the head of `p` and the
number of bytes it spans; `(RuneError, 1)` at a byte that starts no valid
encoding, `(RuneError, 0)` on the empty buffer. -/
def DecodeRune (p : List Nat) : Nat × Nat :=
  let n := p.length
  if n < 1 then (RuneError, 0)
  else
    let p0 := p.getD 0 0
    let x := first p0
    if x ≥ 0xF0 then
      -- mask := rune(x) << 31 >> 31 is all ones when x is odd (xx), zero when x is as
      (if x % 2 = 1 then RuneError else p0, 1)
    else
      let sz := x % 8
      let accept := acceptRanges (x / 16)
      if n < sz then (RuneError, 1)
      else
        let b1 := p.getD 1 0
        if b1 < accept.1 ∨ accept.2 < b1 then (RuneError, 1)
        else if sz ≤ 2 then (p0 % 32 * 64 + b1 % 64, 2)
        else
          let b2 := p.getD 2 0
          if b2 < 0x80 ∨ 0xBF < b2 then (RuneError, 1)
          else if sz ≤ 3 then (p0 % 16 * 4096 + b1 % 64 * 64 + b2 % 64, 3)
          else
            let b3 := p.getD 3 0
            if b3 < 0x80 ∨ 0xBF < b3 then (RuneError, 1)
            else (p0 % 8 * 262144 + b1 % 64 * 4096 + b2 % 64 * 64 + b3 % 64, 4)

/-! ## The Go library: bytes.Runes -/

/-- The body of the loop of `utf8.RuneCount` at the rest `p[i:]` of the
buffer: the number of bytes by which `i` advances. -/
def runeCountSize (p : List Nat) : Nat :=
  let c := p.getD 0 0
  if c < RuneSelf then 1
  else
    let x := first c
    if x = 0xF1 then 1
    else
      let size := x % 8
      if size > p.length then 1
      else
        let accept := acceptRanges (x / 16)
        if p.getD 1 0 < accept.1 ∨ accept.2 < p.getD 1 0 then 1
        else if size = 2 then size
        else if p.getD 2 0 < 0x80 ∨ 0xBF < p.getD 2 0 then 1
        else if size = 3 then size
        else if p.getD 3 0 < 0x80 ∨ 0xBF < p.getD 3 0 then 1
        else size

/-- The loop of `utf8.RuneCount`: `n++` and an advance of at least one byte
in every iteration. -/
def runeCountLoop : Nat → Nat → List Nat → Nat
  | 0, n, _ => n
  | fuel + 1, n, p =>
    if p.length > 0 then runeCountLoop fuel (n + 1) (p.drop (runeCountSize p)) else n

/-- The Go function `utf8.RuneCount`, the length `bytes.Runes` allocates for
its result. -/
def RuneCount (p : List Nat) : Nat := runeCountLoop p.length 0 p

/-- The loop of `bytes.Runes`: `for len(s) > 0 { r, l := utf8.DecodeRune(s);
t[i] = r; i++; s = s[l:] }`. Every iteration removes at least one byte, so
`fuel = len(s)` iterations suffice. -/
def runesLoop : Nat → List Nat → List Nat
  | 0, _ => []
  | fuel + 1, s =>
    if s.length > 0 then
      (DecodeRune s).1 :: runesLoop fuel (s.drop (DecodeRune s).2)
    else []

/-- The Go function `bytes.Runes`: the runes of the buffer, one `RuneError`
for every byte at which decoding fails. The Go code allocates the result with
`make([]rune, utf8.RuneCount(s))` and fills it by the loop; the loop yields
exactly that many runes (`RuneCount_eq_length_Runes`). -/
def Runes (s : List Nat) : List Nat :=
  runesLoop s.length s

/-! ## The Go library: unicode.IsSpace and bytes.Fields -/

/-- The Go function `unicode.IsSpace`. Up to `MaxLatin1` the switch of the
source; above it the table `White_Space` without its Latin-1 part, whose
entries are U+1680, U+2000..U+200A, U+2028..U+2029, U+202F, U+205F, U+3000. -/
def IsSpace (r : Nat) : Bool :=
  if r ≤ 0xFF then
    decide (r = 0x09 ∨ r = 0x0A ∨ r = 0x0B ∨ r = 0x0C ∨ r = 0x0D ∨ r = 0x20 ∨ r = 0x85 ∨ r = 0xA0)
  else
    decide (r = 0x1680 ∨ (0x2000 ≤ r ∧ r ≤ 0x200A) ∨ (0x2028 ≤ r ∧ r ≤ 0x2029) ∨
      r = 0x202F ∨ r = 0x205F ∨ r = 0x3000)

/-- The table `asciiSpace` of package bytes: 1 at tab, newline, vertical tab,
form feed, carriage return and space, 0 elsewhere. -/
def asciiSpace (b : Nat) : Nat :=
  if b = 0x09 ∨ b = 0x0A ∨ b = 0x0B ∨ b = 0x0C ∨ b = 0x0D ∨ b = 0x20 then 1 else 0

/-- The state of the first loop of `bytes.Fields`. -/
structure FieldsScan where
  n : Nat
  wasSpace : Nat
  setBits : Nat
  deriving DecidableEq, Repr

/-- One iteration of the first loop of `bytes.Fields`:
`setBits |= r; isSpace := int(asciiSpace[r]); n += wasSpace & ^isSpace;
wasSpace = isSpace`. With both operands 0 or 1, `wasSpace & ^isSpace` is
`wasSpace * (1 - isSpace)`. -/
def fieldsScanStep (st : FieldsScan) (r : Nat) : FieldsScan :=
  { n := st.n + st.wasSpace * (1 - asciiSpace r)
    wasSpace := asciiSpace r
    setBits := st.setBits ||| r }

/-- The first loop of `bytes.Fields`, from `n := 0; wasSpace := 1;
setBits := 0`. -/
def fieldsScan (s : List Nat) : FieldsScan :=
  s.foldl fieldsScanStep ⟨0, 1, 0⟩

/-- The state of the loop of `bytes.FieldsFunc`: the index `i`, the start of
the open span (`none` for the Go value `-1`) and the spans recorded so far. -/
structure SpanState where
  i : Nat
  start : Option Nat
  spans : List (Nat × Nat)
  deriving DecidableEq, Repr

/-- The loop of `bytes.FieldsFunc` on the rest `s[i:]` of the buffer. Every
iteration advances by at least one byte. -/
def fieldsFuncLoop (f : Nat → Bool) : Nat → SpanState → List Nat → SpanState
  | 0, st, _ => st
  | fuel + 1, st, rest =>
    if rest.length > 0 then
      let r0 := rest.getD 0 0
      let d := if r0 ≥ RuneSelf then DecodeRune rest else (r0, 1)
      let st1 : SpanState :=
        if f d.1 then
          match st.start with
          | some b => { st with spans := st.spans ++ [(b, st.i)], start := none }
          | none => st
        else
          match st.start with
          | some _ => st
          | none => { st with start := some st.i }
      fieldsFuncLoop f fuel { st1 with i := st.i + d.2 } (rest.drop d.2)
    else st

/-- The spans of `bytes.FieldsFunc(s, f)`: the loop, then the span that is
still open at the end of the buffer. -/
def fieldsFuncSpans (s : List Nat) (f : Nat → Bool) : List (Nat × Nat) :=
  let st := fieldsFuncLoop f s.length ⟨0, none, []⟩ s
  match st.start with
  | some b => st.spans ++ [(b, s.length)]
  | none => st.spans

/-- The value of `len(bytes.Fields(s))`. When a byte of `s` is not ASCII
(`setBits >= utf8.RuneSelf`) the result is `FieldsFunc(s, unicode.IsSpace)`,
one slice for each span; otherwise it is the slice `make([][]byte, n)` with
the `n` of the first loop. -/
def lenFields (s : List Nat) : Nat :=
  let sc := fieldsScan s
  if sc.setBits ≥ RuneSelf then (fieldsFuncSpans s IsSpace).length
  else sc.n

/-! ## runCmd: the four counts -/

/-- The value of `len(data)`, printed for `printBytes` (ccwc.go line 117). -/
def byteCount (data : List Nat) : Nat := data.length

/-- The value of `chars`, ccwc.go line 121. -/
def charCount (data : List Nat) : Nat := (Runes data).length

/-- The value of `words`, ccwc.go line 126. -/
def wordCount (data : List Nat) : Nat := lenFields data

/-- The value of `lines` after the loop of ccwc.go lines 131-136. -/
def lineCount (data : List Nat) : Nat :=
  data.foldl (fun lines b => if b = 0x0A then lines + 1 else lines) 0

/-- The bytes of an ASCII text. -/
def asciiBytes (t : String) : List Nat := t.toList.map Char.toNat

/-! ## The Go library: fmt.Printf

`runCmd` calls `fmt.Printf` in two ways: with the constant format `"%d\t"` and
one `int` operand, and with the file path as the format and no operand at
all. The second call runs `(*pp).doPrintf` over a text chosen by the user, so
the directive scanner of package fmt is embedded for an empty operand list. -/

/-- The text `fmt.Printf("%d\t", n)` writes for a non-negative `int`: the
decimal digits of `n` and a tab. -/
def printfCount (n : Nat) : String := Nat.repr n ++ "\t"

/-- The Go function `tooLarge` of package fmt (`max = 1e6`). -/
def tooLarge (x : Nat) : Bool := decide (x > 1000000)

/-- The Go function `parsenum` of package fmt on the characters
`s[start:end]`: the number, whether a digit was read, and the characters
left. On overflow the Go code returns `(0, false, end)`, everything is
consumed. -/
def parsenum : Nat → Bool → List Char → Nat × Bool × List Char
  | num, isnum, [] => (num, isnum, [])
  | num, isnum, c :: cs =>
    if '0' ≤ c ∧ c ≤ '9' then
      if tooLarge num then (0, false, [])
      else parsenum (num * 10 + (c.toNat - '0'.toNat)) true cs
    else (num, isnum, c :: cs)

/-- The Go function `parseArgNumber` of package fmt on `format[i:]`, which
starts with an opening bracket: the index, the width of the bracketed text
and whether it was well formed. -/
def parseArgNumber (format : List Char) : Int × Nat × Bool :=
  if format.length < 3 then (0, 1, false)
  else
    match (format.drop 1).findIdx? (fun ch => ch = ']') with
    | none => (0, 1, false)
    | some k =>
      -- the closing bracket is at index i = k + 1
      let res := parsenum 0 false ((format.drop 1).take k)
      if !res.2.1 ∨ res.2.2 ≠ [] then (0, k + 2, false)
      else ((res.1 : Int) - 1, k + 2, true)

/-- The flags of `(*pp)` that `argNumber` reads and writes. -/
structure ArgPos where
  argNum : Nat
  rest : List Char
  found : Bool
  goodArgNum : Bool
  deriving DecidableEq, Repr

/-- The Go method `(*pp).argNumber` on the rest `format[i:]` of the format. -/
def argNumber (argNum : Nat) (rest : List Char) (numArgs : Nat) (goodArgNum : Bool) : ArgPos :=
  match rest with
  | [] => ⟨argNum, rest, false, goodArgNum⟩
  | ch :: _ =>
    if ch ≠ '[' then ⟨argNum, rest, false, goodArgNum⟩
    else
      let res := parseArgNumber rest
      if res.2.2 ∧ 0 ≤ res.1 ∧ res.1 < (numArgs : Int) then
        ⟨res.1.toNat, rest.drop res.2.1, true, goodArgNum⟩
      else ⟨argNum, rest.drop res.2.1, res.2.2, false⟩

/-- The flag loop `simpleFormat` of `doPrintf`. With no operand left the fast
path for simple verbs is never taken, the loop only skips the flag
characters. -/
def skipFlags : List Char → List Char
  | [] => []
  | c :: cs =>
    if c = '#' ∨ c = '0' ∨ c = '+' ∨ c = '-' ∨ c = ' ' then skipFlags cs
    else c :: cs

/-- The body of the `formatLoop` of `doPrintf` after a percent sign, for an
empty operand list: the text written for the directive and the rest of the
format. -/
def doVerb (afterPercent : List Char) : String × List Char :=
  let r0 := skipFlags afterPercent
  -- Do we have an explicit argument index?
  let a1 := argNumber 0 r0 0 true
  -- Do we have width?
  let w : String × List Char × Bool × Bool :=
    match a1.rest with
    | '*' :: tl => ("%!(BADWIDTH)", tl, false, a1.goodArgNum)
    | _ =>
      let res := parsenum 0 false a1.rest
      ("", res.2.2, a1.found, if a1.found && res.2.1 then false else a1.goodArgNum)
  -- Do we have precision?
  let q : String × List Char × Bool × Bool :=
    match w.2.1 with
    | '.' :: tl =>
      let good := if w.2.2.1 then false else w.2.2.2
      let a2 := argNumber a1.argNum tl 0 good
      match a2.rest with
      | '*' :: tl2 => (w.1 ++ "%!(BADPREC)", tl2, false, a2.goodArgNum)
      | _ => (w.1, (parsenum 0 false a2.rest).2.2, a2.found, a2.goodArgNum)
    | _ => w
  let a3 : ArgPos :=
    if !q.2.2.1 then argNumber a1.argNum q.2.1 0 q.2.2.2
    else ⟨a1.argNum, q.2.1, q.2.2.1, q.2.2.2⟩
  match a3.rest with
  | [] => (q.1 ++ "%!(NOVERB)", [])
  | verb :: tl =>
    if verb = '%' then (q.1 ++ "%", tl)
    else if !a3.goodArgNum then (q.1 ++ "%!" ++ String.singleton verb ++ "(BADINDEX)", tl)
    else (q.1 ++ "%!" ++ String.singleton verb ++ "(MISSING)", tl)

/-- The `formatLoop` of `doPrintf` for an empty operand list: the text before
the next percent sign is copied, then one directive is processed. Every
iteration but the last removes a percent sign from the format, so a fuel
above the length of the format is never used up (`doPrintfLoop_fuel`). -/
def doPrintfLoop : Nat → String → List Char → String
  | 0, buf, _ => buf
  | fuel + 1, buf, format =>
    let buf1 := buf ++ String.mk (format.takeWhile (fun ch => ch ≠ '%'))
    match format.dropWhile (fun ch => ch ≠ '%') with
    | [] => buf1
    | _ :: tl => doPrintfLoop fuel (buf1 ++ (doVerb tl).1) (doVerb tl).2

/-- The text `fmt.Printf(format)` writes when it is called without operands,
as at ccwc.go line 141. -/
def printfNoArgs (format : String) : String :=
  doPrintfLoop (format.length + 1) "" format.toList

/-! ## The manual -/

/-- The Go variable `manual` (ccwc.go, lines 11-43): the template with
`os.Args[0]` in the place of each of its three `%s`. -/
def manual (prog : String) : String :=
  prog ++ "\n\nNAME\n" ++ prog ++
  " - print newline, word, and byte counts for each file\n\nSYNOPSIS\n" ++ prog ++
  " [OPTION]... [FILE]...\n\nDESCRIPTION\n" ++
  "Print  newline,  word,  and  byte counts for each FILE, and a total line if more than one FILE is specified.  A word is a non-zero-length sequence of characters delimited by\n" ++
  "white space.\n\nWith no FILE, or when FILE is -, read standard input.\n\n" ++
  "The options below may be used to select which counts are printed, always in the following order: newline, word, character, byte.\n\n" ++
  "-c, --bytes\n\t   print the byte counts\n\n" ++
  "-m, --chars\n\t   print the character counts\n\n" ++
  "-l, --lines\n\t   print the newline counts\n\n" ++
  "-w, --words\n\t   print the word counts\n\n" ++
  "-h, --help display this help and exit\n\nAUTHOR\nWritten by Abhishek Pandey.\n"

/-! ## runCmd and main -/

/-- The input step of `runCmd` (ccwc.go, lines 101-114). `readFile` is
`os.ReadFile` on the file system of the run and `r` is the result of
`io.ReadAll` on the default stream; an error is wrapped by `fmt.Errorf`. -/
def readInput (readFile : String → Except String (List Nat)) (r : Except String (List Nat))
    (c : config) : Except String (List Nat) :=
  if c.filePath ≠ "" then
    match readFile c.filePath with
    | .error e => .error ("error reading from file " ++ c.filePath ++ ": " ++ e)
    | .ok data => .ok data
  else
    match r with
    | .error e => .error ("error reading from stdin: " ++ e)
    | .ok data => .ok data

/-- The output step of `runCmd` (ccwc.go, lines 116-144): the text written to
standard output, one call after the other. -/
def printCounts (c : config) (data : List Nat) : String :=
  let out0 := ""
  let out1 := if c.printBytes then out0 ++ printfCount data.length else out0
  let out2 := if c.printChars then out1 ++ printfCount (Runes data).length else out1
  let out3 := if c.printWords then out2 ++ printfCount (lenFields data) else out2
  let out4 := if c.printLines then out3 ++ printfCount (lineCount data) else out3
  let out5 := if c.filePath ≠ "" then out4 ++ printfNoArgs c.filePath else out4
  out5 ++ "\n"

/-- The Go function `runCmd` (ccwc.go, lines 95-147): the text written to
standard output and the returned error (`none` for `nil`). `prog` is
`os.Args[0]`. -/
def runCmd (prog : String) (readFile : String → Except String (List Nat))
    (r : Except String (List Nat)) (c : config) : String × Option String :=
  if c.printManual then (manual prog, none)
  else
    match readInput readFile r c with
    | .error e => ("", some e)
    | .ok data => (printCounts c data, none)

/-- What a run of the program leaves behind. -/
structure Outcome where
  stdout : String
  stderr : String
  exitCode : Nat
  deriving DecidableEq, Repr

/-- The Go function `main` (ccwc.go, lines 149-161), with `os.Args` split in
`prog` and `args`. -/
def main (prog : String) (args : List String)
    (readFile : String → Except String (List Nat)) (r : Except String (List Nat)) : Outcome :=
  match parseArgs args with
  | .error e => ⟨"", e ++ "\n", 1⟩
  | .ok c =>
    match runCmd prog readFile r c with
    | (out, some e) => ⟨out, e ++ "\n", 2⟩
    | (out, none) => ⟨out, "", 0⟩

/-- A file system that holds one file. -/
def oneFile (name : String) (content : List Nat) (path : String) : Except String (List Nat) :=
  if path = name then .ok content else .error ("open " ++ path ++ ": no such file or directory")

/-! ## The words of the specification about tokens -/

/-- A help token. -/
def isHelp (a : String) : Bool := a = "-h" || a = "--help"

/-- A bytes flag. -/
def isBytes (a : String) : Bool := a = "-c" || a = "--bytes"

/-- A chars flag. -/
def isChars (a : String) : Bool := a = "-m" || a = "--chars"

/-- A words flag. -/
def isWords (a : String) : Bool := a = "-w" || a = "--words"

/-- A lines flag. -/
def isLines (a : String) : Bool := a = "-l" || a = "--lines"

/-- A counting flag, in short or long form. -/
def isCounting (a : String) : Bool := isBytes a || isChars a || isWords a || isLines a

/-- One of the ten flag tokens. -/
def isFlag (a : String) : Bool := isHelp a || isCounting a

/-- The non-flag tokens of a list, in their order. -/
def nonFlags (args : List String) : List String := args.filter (fun a => !isFlag a)

/-! ## The words of the specification about counts -/

/-- The six white-space characters the specification names: space, tab,
newline, carriage return, form feed and vertical tab. -/
def isSixSpace (b : Nat) : Bool :=
  decide (b = 0x20 ∨ b = 0x09 ∨ b = 0x0A ∨ b = 0x0D ∨ b = 0x0C ∨ b = 0x0B)

/-- The number of maximal non-empty runs of elements that are not separators:
the list is cut at every separator and the non-empty pieces are counted. -/
def countRuns {α : Type} (sep : α → Bool) (l : List α) : Nat :=
  ((l.splitOnP sep).filter (fun piece => !piece.isEmpty)).length

/-- The runs met by a scan from the left that is inside a run (`inRun`) or
not: a run is counted where it ends. -/
def runsFrom {α : Type} (sep : α → Bool) : Bool → List α → Nat
  | inRun, [] => if inRun then 1 else 0
  | inRun, x :: xs =>
    if sep x then (if inRun then 1 else 0) + runsFrom sep false xs
    else runsFrom sep true xs

/-- A Unicode scalar value: a code point that is no surrogate. These are the
code points that have a UTF-8 encoding. -/
def isScalarValue (c : Nat) : Prop := c < 0xD800 ∨ (0xE000 ≤ c ∧ c ≤ 0x10FFFF)

instance (c : Nat) : Decidable (isScalarValue c) := by
  unfold isScalarValue
  exact inferInstance

/-- The UTF-8 encoding of a code point (RFC 3629, section 3): one to four
bytes, by the size of the code point. -/
def utf8Encode (c : Nat) : List Nat :=
  if c < 0x80 then [c]
  else if c < 0x800 then [0xC0 + c / 64, 0x80 + c % 64]
  else if c < 0x10000 then [0xE0 + c / 4096, 0x80 + c / 64 % 64, 0x80 + c % 64]
  else [0xF0 + c / 262144, 0x80 + c / 4096 % 64, 0x80 + c / 64 % 64, 0x80 + c % 64]

/-- The UTF-8 encoding of a sequence of code points. -/
def utf8EncodeAll (cps : List Nat) : List Nat := cps.flatMap utf8Encode

/-- The length of the well-formed UTF-8 byte sequence at the head of a
buffer, 0 when there is none. One line for each row of table 3-7 of the
Unicode Standard (well-formed UTF-8 byte sequences), chosen by the first
byte: the ranges allowed for the second, third and fourth byte. -/
def wellFormedLen (s : List Nat) : Nat :=
  let n := s.length
  let b0 := s.getD 0 0
  let b1 := s.getD 1 0
  let b2 := s.getD 2 0
  let b3 := s.getD 3 0
  if n = 0 then 0
  else if b0 ≤ 0x7F then 1
  else if 0xC2 ≤ b0 ∧ b0 ≤ 0xDF then
    (if 2 ≤ n ∧ 0x80 ≤ b1 ∧ b1 ≤ 0xBF then 2 else 0)
  else if b0 = 0xE0 then
    (if 3 ≤ n ∧ 0xA0 ≤ b1 ∧ b1 ≤ 0xBF ∧ 0x80 ≤ b2 ∧ b2 ≤ 0xBF then 3 else 0)
  else if 0xE1 ≤ b0 ∧ b0 ≤ 0xEC then
    (if 3 ≤ n ∧ 0x80 ≤ b1 ∧ b1 ≤ 0xBF ∧ 0x80 ≤ b2 ∧ b2 ≤ 0xBF then 3 else 0)
  else if b0 = 0xED then
    (if 3 ≤ n ∧ 0x80 ≤ b1 ∧ b1 ≤ 0x9F ∧ 0x80 ≤ b2 ∧ b2 ≤ 0xBF then 3 else 0)
  else if 0xEE ≤ b0 ∧ b0 ≤ 0xEF then
    (if 3 ≤ n ∧ 0x80 ≤ b1 ∧ b1 ≤ 0xBF ∧ 0x80 ≤ b2 ∧ b2 ≤ 0xBF then 3 else 0)
  else if b0 = 0xF0 then
    (if 4 ≤ n ∧ 0x90 ≤ b1 ∧ b1 ≤ 0xBF ∧ 0x80 ≤ b2 ∧ b2 ≤ 0xBF ∧ 0x80 ≤ b3 ∧ b3 ≤ 0xBF then 4
      else 0)
  else if 0xF1 ≤ b0 ∧ b0 ≤ 0xF3 then
    (if 4 ≤ n ∧ 0x80 ≤ b1 ∧ b1 ≤ 0xBF ∧ 0x80 ≤ b2 ∧ b2 ≤ 0xBF ∧ 0x80 ≤ b3 ∧ b3 ≤ 0xBF then 4
      else 0)
  else if b0 = 0xF4 then
    (if 4 ≤ n ∧ 0x80 ≤ b1 ∧ b1 ≤ 0x8F ∧ 0x80 ≤ b2 ∧ b2 ≤ 0xBF ∧ 0x80 ≤ b3 ∧ b3 ≤ 0xBF then 4
      else 0)
  else 0

/-- The buffer read from the left as a sequence of units: `true` for a
well-formed encoding of a code point, `false` for a byte at which no
well-formed encoding starts (an invalid byte). -/
def unitsLoop : Nat → List Nat → List Bool
  | 0, _ => []
  | fuel + 1, s =>
    if s.length = 0 then []
    else if wellFormedLen s = 0 then false :: unitsLoop fuel (s.drop 1)
    else true :: unitsLoop fuel (s.drop (wellFormedLen s))

/-- The units of a buffer. -/
def units (s : List Nat) : List Bool := unitsLoop s.length s

/-- The number of validly encoded code points of a buffer. -/
def validCodePoints (s : List Nat) : Nat := (units s).count true

/-- The number of invalid bytes of a buffer. -/
def invalidBytes (s : List Nat) : Nat := (units s).count false

/-- The number of maximal runs of consecutive invalid bytes of a buffer: the
units are cut at the valid code points. -/
def invalidRuns (s : List Nat) : Nat := countRuns (fun valid => valid) (units s)

/-- The file path at the end of the loop of `parseArgs`, as it depends on the
non-flag tokens alone: a non-flag token is an error once the path is
non-empty, and is the new path otherwise. -/
def fileScan : String → List String → Except String String
  | fp, [] => .ok fp
  | fp, a :: rest => if fp ≠ "" then .error (errMultiple a) else fileScan a rest

/-- A file system that holds no file: `os.ReadFile` fails on every path. -/
def noFile (path : String) : Except String (List Nat) :=
  .error ("open " ++ path ++ ": no such file or directory")

/-- The configuration `parseArgs` returns on the tokens `--help f`. -/
def c11Config : config := ⟨"f", true, false, false, false, false⟩

/-- The configuration `parseArgs` returns on the empty token, `-w` and `f`. -/
def c18Config : config := ⟨"f", false, false, false, true, false⟩

/-- The width step of `doVerb`, as a function of the position after the
argument index. -/
def widthStage (a1 : ArgPos) : String × List Char × Bool × Bool :=
  match a1.rest with
  | '*' :: tl => ("%!(BADWIDTH)", tl, false, a1.goodArgNum)
  | _ =>
    let res := parsenum 0 false a1.rest
    ("", res.2.2, a1.found, if a1.found && res.2.1 then false else a1.goodArgNum)

/-- The precision step of `doVerb`, as a function of the result of the width
step. -/
def precStage (argNum : Nat) (w : String × List Char × Bool × Bool) :
    String × List Char × Bool × Bool :=
  match w.2.1 with
  | '.' :: tl =>
    let good := if w.2.2.1 then false else w.2.2.2
    let a2 := argNumber argNum tl 0 good
    match a2.rest with
    | '*' :: tl2 => (w.1 ++ "%!(BADPREC)", tl2, false, a2.goodArgNum)
    | _ => (w.1, (parsenum 0 false a2.rest).2.2, a2.found, a2.goodArgNum)
  | _ => w

/-- The last argument index step of `doVerb`. -/
def indexStage (argNum : Nat) (q : String × List Char × Bool × Bool) : ArgPos :=
  if !q.2.2.1 then argNumber argNum q.2.1 0 q.2.2.2
  else ⟨argNum, q.2.1, q.2.2.1, q.2.2.2⟩

/-- The verb step of `doVerb`. -/
def verbStage (written : String) (a3 : ArgPos) : String × List Char :=
  match a3.rest with
  | [] => (written ++ "%!(NOVERB)", [])
  | verb :: tl =>
    if verb = '%' then (written ++ "%", tl)
    else if !a3.goodArgNum then (written ++ "%!" ++ String.singleton verb ++ "(BADINDEX)", tl)
    else (written ++ "%!" ++ String.singleton verb ++ "(MISSING)", tl)

/-- The configuration `parseArgs` returns on the tokens `-w -l f`. -/
def c7Config : config := ⟨"f", false, false, false, true, true⟩



/-! ## Lemmas on parseArgs -/

theorem parseStep_ok (c c1 : config) (a : String) (h : parseStep c a = .ok c1) :
    c1.printManual = (c.printManual || isHelp a) ∧ c1.printBytes = (c.printBytes || isBytes a) ∧
    c1.printChars = (c.printChars || isChars a) ∧ c1.printWords = (c.printWords || isWords a) ∧
    c1.printLines = (c.printLines || isLines a) ∧
    c1.filePath = (if isFlag a then c.filePath else a) ∧ (isFlag a = false → c.filePath = "") := by
  unfold parseStep at h
  simp only [isFlag, isCounting, isHelp, isBytes, isChars, isWords, isLines]
  split_ifs at h with h1 h2 h3 h4 h5 h6 <;> simp only [Except.ok.injEq, reduceCtorEq] at h
  all_goals subst h
  · rcases h1 with h1 | h1 <;> subst h1 <;> simp
  · rcases h2 with h1 | h1 <;> subst h1 <;> simp
  · rcases h3 with h1 | h1 <;> subst h1 <;> simp
  · rcases h4 with h1 | h1 <;> subst h1 <;> simp
  · rcases h5 with h1 | h1 <;> subst h1 <;> simp
  · push_neg at h1 h2 h3 h4 h5 h6
    simp [h1, h2, h3, h4, h5, h6]

theorem parseStep_error (c : config) (a e : String) (h : parseStep c a = .error e) :
    isFlag a = false ∧ c.filePath ≠ "" ∧ e = errMultiple a := by
  unfold parseStep at h
  simp only [isFlag, isCounting, isHelp, isBytes, isChars, isWords, isLines]
  split_ifs at h with h1 h2 h3 h4 h5 h6
  simp only [Except.error.injEq] at h
  push_neg at h1 h2 h3 h4 h5
  simp [h1, h2, h3, h4, h5, h6, h]

theorem parseStep_nonflag_error (c : config) (a : String) (hf : isFlag a = false)
    (hp : c.filePath ≠ "") : parseStep c a = .error (errMultiple a) := by
  simp only [isFlag, isCounting, isHelp, isBytes, isChars, isWords, isLines, Bool.or_eq_false_iff,
    decide_eq_false_iff_not] at hf
  unfold parseStep
  simp [hf, hp]

theorem parseStep_total (c : config) (a : String) (h : isFlag a = true ∨ c.filePath = "") :
    ∃ c1, parseStep c a = .ok c1 := by
  cases hr : parseStep c a with
  | ok c1 => exact ⟨c1, rfl⟩
  | error e =>
    have := parseStep_error c a e hr
    rcases h with h | h
    · rw [this.1] at h; cases h
    · exact absurd h this.2.1

theorem parseLoop_ok (args : List String) : ∀ (c c1 : config), parseLoop c args = .ok c1 →
    c1.printManual = (c.printManual || args.any isHelp) ∧
    c1.printBytes = (c.printBytes || args.any isBytes) ∧
    c1.printChars = (c.printChars || args.any isChars) ∧
    c1.printWords = (c.printWords || args.any isWords) ∧
    c1.printLines = (c.printLines || args.any isLines) := by
  induction args with
  | nil =>
    intro c c1 h
    simp only [parseLoop, Except.ok.injEq] at h
    subst h
    simp
  | cons a rest ih =>
    intro c c1 h
    simp only [parseLoop] at h
    cases hs : parseStep c a with
    | error e => rw [hs] at h; cases h
    | ok c2 =>
      rw [hs] at h
      obtain ⟨s1, s2, s3, s4, s5, -, -⟩ := parseStep_ok c c2 a hs
      obtain ⟨r1, r2, r3, r4, r5⟩ := ih c2 c1 h
      simp only [List.any_cons, r1, r2, r3, r4, r5, s1, s2, s3, s4, s5, Bool.or_assoc, and_self]

theorem parseLoop_error (args : List String) : ∀ (c : config) (e : String),
    parseLoop c args = .error e → ∃ a ∈ args, isFlag a = false ∧ e = errMultiple a := by
  induction args with
  | nil => intro c e h; simp [parseLoop] at h
  | cons a rest ih =>
    intro c e h
    simp only [parseLoop] at h
    cases hs : parseStep c a with
    | error e1 =>
      rw [hs] at h
      simp only [Except.error.injEq] at h
      subst h
      exact ⟨a, List.mem_cons_self _ _, (parseStep_error c a e1 hs).1, (parseStep_error c a e1 hs).2.2⟩
    | ok c2 =>
      rw [hs] at h
      obtain ⟨b, hb, hb1, hb2⟩ := ih c2 e h
      exact ⟨b, List.mem_cons_of_mem _ hb, hb1, hb2⟩

/-- Once a file path is set, the next non-flag token stops the loop. -/
theorem parseLoop_path_set (args : List String) : ∀ (c : config), c.filePath ≠ "" →
    (∃ a ∈ args, isFlag a = false) →
    ∃ a ∈ args, isFlag a = false ∧ parseLoop c args = .error (errMultiple a) := by
  induction args with
  | nil => intro c _ h; simp at h
  | cons a rest ih =>
    intro c hp h
    cases hf : isFlag a with
    | false =>
      refine ⟨a, List.mem_cons_self _ _, hf, ?_⟩
      simp only [parseLoop, parseStep_nonflag_error c a hf hp]
    | true =>
      obtain ⟨c2, hs⟩ := parseStep_total c a (Or.inl hf)
      have hp2 : c2.filePath ≠ "" := by
        have := (parseStep_ok c c2 a hs).2.2.2.2.2.1
        rw [this, hf]; simpa using hp
      have hrest : ∃ b ∈ rest, isFlag b = false := by
        obtain ⟨b, hb, hb1⟩ := h
        rcases List.mem_cons.1 hb with rfl | hb
        · rw [hf] at hb1; cases hb1
        · exact ⟨b, hb, hb1⟩
      obtain ⟨b, hb, hb1, hb2⟩ := ih c2 hp2 hrest
      exact ⟨b, List.mem_cons_of_mem _ hb, hb1, by simp only [parseLoop, hs, hb2]⟩

/-- A non-empty non-flag token that is not the last non-flag token stops the
loop at a later non-flag token. -/
theorem parseLoop_two_files (args : List String) : ∀ (c : config),
    (∃ x ∈ (nonFlags args).dropLast, x ≠ "") →
    ∃ a ∈ args, isFlag a = false ∧ parseLoop c args = .error (errMultiple a) := by
  induction args with
  | nil => intro c h; simp [nonFlags] at h
  | cons a rest ih =>
    intro c h
    cases hf : isFlag a with
    | true =>
      obtain ⟨c2, hs⟩ := parseStep_total c a (Or.inl hf)
      have hnf : nonFlags (a :: rest) = nonFlags rest := by simp [nonFlags, hf]
      rw [hnf] at h
      obtain ⟨b, hb, hb1, hb2⟩ := ih c2 h
      exact ⟨b, List.mem_cons_of_mem _ hb, hb1, by simp only [parseLoop, hs, hb2]⟩
    | false =>
      by_cases hp : c.filePath = ""
      · obtain ⟨c2, hs⟩ := parseStep_total c a (Or.inr hp)
        have hc2 : c2.filePath = a := by
          have := (parseStep_ok c c2 a hs).2.2.2.2.2.1
          rw [this, hf]; simp
        have hnf : nonFlags (a :: rest) = a :: nonFlags rest := by simp [nonFlags, hf]
        rw [hnf] at h
        obtain ⟨x, hx, hx1⟩ := h
        cases hr : nonFlags rest with
        | nil => rw [hr] at hx; simp at hx
        | cons y ys =>
          rw [hr, List.dropLast_cons₂] at hx
          have hy : ∃ b ∈ rest, isFlag b = false := by
            have hy1 : y ∈ nonFlags rest := by rw [hr]; exact List.mem_cons_self _ _
            simp only [nonFlags, List.mem_filter, Bool.not_eq_true'] at hy1
            exact ⟨y, hy1.1, hy1.2⟩
          rcases List.mem_cons.1 hx with rfl | hx
          · obtain ⟨b, hb, hb1, hb2⟩ := parseLoop_path_set rest c2 (by rw [hc2]; exact hx1) hy
            exact ⟨b, List.mem_cons_of_mem _ hb, hb1, by simp only [parseLoop, hs, hb2]⟩
          · obtain ⟨b, hb, hb1, hb2⟩ := ih c2 ⟨x, by rw [hr]; exact hx, hx1⟩
            exact ⟨b, List.mem_cons_of_mem _ hb, hb1, by simp only [parseLoop, hs, hb2]⟩
      · refine ⟨a, List.mem_cons_self _ _, hf, ?_⟩
        simp only [parseLoop, parseStep_nonflag_error c a hf hp]

/-- With no file path set and at most one non-flag token the loop runs to its
end; with no non-flag token it does so from every configuration. -/
theorem parseLoop_total (args : List String) : ∀ (c : config),
    ((nonFlags args).length = 0 ∨ (c.filePath = "" ∧ (nonFlags args).length ≤ 1)) →
    ∃ c1, parseLoop c args = .ok c1 := by
  induction args with
  | nil => intro c _; exact ⟨c, rfl⟩
  | cons a rest ih =>
    intro c h
    cases hf : isFlag a with
    | true =>
      obtain ⟨c2, hs⟩ := parseStep_total c a (Or.inl hf)
      have hnf : nonFlags (a :: rest) = nonFlags rest := by simp [nonFlags, hf]
      rw [hnf] at h
      have hp2 : c2.filePath = c.filePath := by
        have := (parseStep_ok c c2 a hs).2.2.2.2.2.1
        rw [this, hf]; simp
      obtain ⟨c1, h1⟩ := ih c2 (by rw [hp2]; exact h)
      exact ⟨c1, by simp only [parseLoop, hs, h1]⟩
    | false =>
      have hnf : nonFlags (a :: rest) = a :: nonFlags rest := by simp [nonFlags, hf]
      rw [hnf] at h
      simp only [List.length_cons, Nat.add_one_ne_zero, false_or] at h
      obtain ⟨c2, hs⟩ := parseStep_total c a (Or.inr h.1)
      obtain ⟨c1, h1⟩ := ih c2 (Or.inl (by omega))
      exact ⟨c1, by simp only [parseLoop, hs, h1]⟩

theorem errMultiple_ne_errEmptyArgs (a : String) : errMultiple a ≠ errEmptyArgs := by
  intro h
  cases a with
  | mk l =>
    have h1 : (errMultiple ⟨l⟩).data.head? = errEmptyArgs.data.head? := by rw [h]
    have h2 : (errMultiple ⟨l⟩).data.head? = some 'm' := rfl
    have h3 : errEmptyArgs.data.head? = some 'i' := rfl
    rw [h2, h3] at h1
    exact absurd h1 (by decide)

theorem parseArgs_unfold (args : List String) (c : config) (hok : parseArgs args = .ok c) :
    args ≠ [] ∧ ∃ c0, parseLoop config.zero args = .ok c0 ∧ parseFinish c0 = .ok c := by
  unfold parseArgs at hok
  split_ifs at hok with h0
  refine ⟨fun h => h0 (by simp [h]), ?_⟩
  cases hl : parseLoop config.zero args with
  | error e => rw [hl] at hok; cases hok
  | ok c0 => rw [hl] at hok; exact ⟨c0, rfl, hok⟩

/-! ## Lemmas on runs -/

theorem runsFrom_eq_split {α : Type} (sep : α → Bool) (l : List α) :
    runsFrom sep false l = countRuns sep l ∧
    runsFrom sep true l =
      countRuns sep l + (if ((l.splitOnP sep).headD []).isEmpty then 1 else 0) := by
  induction l with
  | nil => simp [runsFrom, countRuns, List.splitOnP_nil]
  | cons x xs ih =>
    obtain ⟨ih1, ih2⟩ := ih
    unfold countRuns at ih1 ih2 ⊢
    rw [List.splitOnP_cons]
    by_cases hx : sep x = true
    · simp [runsFrom, hx, ih1, Nat.add_comm]
    · simp only [runsFrom, hx, Bool.false_eq_true, if_false, ih2]
      cases hs : xs.splitOnP sep with
      | nil => exact absurd hs (List.splitOnP_ne_nil _ _)
      | cons h t =>
        cases h with
        | nil => simp [List.modifyHead, List.filter]
        | cons y ys => simp [List.modifyHead, List.filter]

theorem countRuns_congr {α : Type} (p q : α → Bool) (l : List α) (h : ∀ x ∈ l, p x = q x) :
    countRuns p l = countRuns q l := by
  rw [← (runsFrom_eq_split p l).1, ← (runsFrom_eq_split q l).1]
  generalize false = b
  induction l generalizing b with
  | nil => rfl
  | cons x xs ih =>
    have hx := h x (List.mem_cons_self _ _)
    have hxs : ∀ y ∈ xs, p y = q y := fun y hy => h y (List.mem_cons_of_mem _ hy)
    simp only [runsFrom, hx, ih hxs]

/-! ## Lemmas on the line count -/

theorem lineCount_foldl (B : List Nat) : ∀ acc : Nat,
    B.foldl (fun lines b => if b = 0x0A then lines + 1 else lines) acc = acc + B.count 0x0A := by
  induction B with
  | nil => intro acc; simp
  | cons b rest ih =>
    intro acc
    simp only [List.foldl_cons, ih, List.count_cons]
    by_cases hb : b = 0x0A
    · simp [hb]; omega
    · simp [hb]

/-! ## Lemmas on the table `first` -/

theorem first_as (b : Nat) (h : b < 0x80) : first b = 0xF0 := by
  simp only [first, h, if_true]

theorem first_xx (b : Nat) (h : (0x80 ≤ b ∧ b < 0xC2) ∨ 0xF5 ≤ b) : first b = 0xF1 := by
  have h1 : ¬ b < 0x80 := by omega
  by_cases h2 : b < 0xC2
  · simp only [first, h1, h2, if_true, if_false]
  · have h3 : ¬ b < 0xE0 := by omega
    have h4 : ¬ b = 0xE0 := by omega
    have h5 : ¬ b < 0xED := by omega
    have h6 : ¬ b = 0xED := by omega
    have h7 : ¬ b < 0xF0 := by omega
    have h8 : ¬ b = 0xF0 := by omega
    have h9 : ¬ b < 0xF4 := by omega
    have h10 : ¬ b = 0xF4 := by omega
    simp only [first, h1, h2, h3, h4, h5, h6, h7, h8, h9, h10, if_false]

theorem first_s1 (b : Nat) (h : 0xC2 ≤ b ∧ b ≤ 0xDF) : first b = 0x02 := by
  have h1 : ¬ b < 0x80 := by omega
  have h2 : ¬ b < 0xC2 := by omega
  have h3 : b < 0xE0 := by omega
  simp only [first, h1, h2, h3, if_true, if_false]

theorem first_s2 : first 0xE0 = 0x13 := by decide

theorem first_s3 (b : Nat) (h : (0xE1 ≤ b ∧ b ≤ 0xEC) ∨ (0xEE ≤ b ∧ b ≤ 0xEF)) :
    first b = 0x03 := by
  have h1 : ¬ b < 0x80 := by omega
  have h2 : ¬ b < 0xC2 := by omega
  have h3 : ¬ b < 0xE0 := by omega
  have h4 : ¬ b = 0xE0 := by omega
  by_cases h5 : b < 0xED
  · simp only [first, h1, h2, h3, h4, h5, if_true, if_false]
  · have h6 : ¬ b = 0xED := by omega
    have h7 : b < 0xF0 := by omega
    simp only [first, h1, h2, h3, h4, h5, h6, h7, if_true, if_false]

theorem first_s4 : first 0xED = 0x23 := by decide

theorem first_s5 : first 0xF0 = 0x34 := by decide

theorem first_s6 (b : Nat) (h : 0xF1 ≤ b ∧ b ≤ 0xF3) : first b = 0x04 := by
  have h1 : ¬ b < 0x80 := by omega
  have h2 : ¬ b < 0xC2 := by omega
  have h3 : ¬ b < 0xE0 := by omega
  have h4 : ¬ b = 0xE0 := by omega
  have h5 : ¬ b < 0xED := by omega
  have h6 : ¬ b = 0xED := by omega
  have h7 : ¬ b < 0xF0 := by omega
  have h8 : ¬ b = 0xF0 := by omega
  have h9 : b < 0xF4 := by omega
  simp only [first, h1, h2, h3, h4, h5, h6, h7, h8, h9, if_true, if_false]

theorem first_s7 : first 0xF4 = 0x44 := by decide

/-- The first byte of a buffer falls in one of the classes of the table
`first`. -/
theorem first_cases (b : Nat) :
    first b = 0xF0 ∨ first b = 0xF1 ∨ first b = 0x02 ∨ first b = 0x13 ∨ first b = 0x03 ∨
    first b = 0x23 ∨ first b = 0x34 ∨ first b = 0x04 ∨ first b = 0x44 := by
  have hb : b < 0x80 ∨ ((0x80 ≤ b ∧ b < 0xC2) ∨ 0xF5 ≤ b) ∨ (0xC2 ≤ b ∧ b ≤ 0xDF) ∨
      b = 0xE0 ∨ ((0xE1 ≤ b ∧ b ≤ 0xEC) ∨ (0xEE ≤ b ∧ b ≤ 0xEF)) ∨ b = 0xED ∨ b = 0xF0 ∨
      (0xF1 ≤ b ∧ b ≤ 0xF3) ∨ b = 0xF4 := by omega
  rcases hb with hb | hb | hb | hb | hb | hb | hb | hb | hb
  · exact Or.inl (first_as b hb)
  · exact Or.inr (Or.inl (first_xx b hb))
  · exact Or.inr (Or.inr (Or.inl (first_s1 b hb)))
  · subst hb; exact Or.inr (Or.inr (Or.inr (Or.inl first_s2)))
  · exact Or.inr (Or.inr (Or.inr (Or.inr (Or.inl (first_s3 b hb)))))
  · subst hb; exact Or.inr (Or.inr (Or.inr (Or.inr (Or.inr (Or.inl first_s4)))))
  · subst hb; exact Or.inr (Or.inr (Or.inr (Or.inr (Or.inr (Or.inr (Or.inl first_s5))))))
  · exact Or.inr (Or.inr (Or.inr (Or.inr (Or.inr (Or.inr (Or.inr (Or.inl (first_s6 b hb))))))))
  · subst hb; exact Or.inr (Or.inr (Or.inr (Or.inr (Or.inr (Or.inr (Or.inr (Or.inr first_s7)))))))

theorem first_size (b : Nat) : first b < 0xF0 → 2 ≤ first b % 8 ∧ first b % 8 ≤ 4 := by
  rcases first_cases b with h | h | h | h | h | h | h | h | h <;> rw [h] <;> omega

/-! ## Lemmas on the decoder -/

theorem DecodeRune_ascii (b : Nat) (rest : List Nat) (hb : b < 0x80) :
    DecodeRune (b :: rest) = (b, 1) := by
  simp [DecodeRune, first_as b hb]

theorem DecodeRune_size_pos (s : List Nat) (hs : s ≠ []) : 1 ≤ (DecodeRune s).2 := by
  cases s with
  | nil => exact absurd rfl hs
  | cons b rest =>
    unfold DecodeRune
    simp only [List.length_cons, Nat.lt_one_iff, Nat.add_one_ne_zero, if_false]
    split_ifs <;> dsimp only <;> omega

/-- The slice `s[l:]` of `bytes.Runes` stays inside the buffer. -/
theorem DecodeRune_size_le (s : List Nat) : (DecodeRune s).2 ≤ s.length := by
  cases s with
  | nil => simp [DecodeRune]
  | cons b rest =>
    have hx := first_size b
    unfold DecodeRune
    simp only [List.length_cons, Nat.lt_one_iff, Nat.add_one_ne_zero, if_false, List.getD_cons_zero]
    generalize first b = x at hx ⊢
    split_ifs <;> dsimp only <;> omega

theorem runesLoop_fuel (fuel1 : Nat) : ∀ (fuel2 : Nat) (s : List Nat),
    s.length ≤ fuel1 → s.length ≤ fuel2 → runesLoop fuel1 s = runesLoop fuel2 s := by
  induction fuel1 with
  | zero =>
    intro fuel2 s h1 _
    have hs : s = [] := List.length_eq_zero.1 (Nat.le_zero.1 h1)
    subst hs
    cases fuel2 <;> simp [runesLoop]
  | succ n ih =>
    intro fuel2 s h1 h2
    cases fuel2 with
    | zero =>
      have hs : s = [] := List.length_eq_zero.1 (Nat.le_zero.1 h2)
      subst hs
      simp [runesLoop]
    | succ m =>
      by_cases hs : s = []
      · subst hs; simp [runesLoop]
      · have hpos := DecodeRune_size_pos s hs
        have hlen : 0 < s.length := List.length_pos.2 hs
        simp only [runesLoop, hlen, gt_iff_lt, if_true]
        rw [ih m (s.drop (DecodeRune s).2) (by rw [List.length_drop]; omega)
          (by rw [List.length_drop]; omega)]

/-- The unfolding of `Runes`: one rune, then the runes of the rest. -/
theorem Runes_step (s : List Nat) (hs : s ≠ []) :
    Runes s = (DecodeRune s).1 :: Runes (s.drop (DecodeRune s).2) := by
  have hpos := DecodeRune_size_pos s hs
  have hlen : 0 < s.length := List.length_pos.2 hs
  unfold Runes
  cases hn : s.length with
  | zero => omega
  | succ n =>
    simp only [runesLoop, hlen, gt_iff_lt, if_true]
    rw [runesLoop_fuel n (s.drop (DecodeRune s).2).length _ (by rw [List.length_drop]; omega)
      (Nat.le_refl _)]

theorem Runes_nil : Runes [] = [] := rfl

theorem Runes_ascii (s : List Nat) (h : ∀ b ∈ s, b < 0x80) : Runes s = s := by
  induction s with
  | nil => rfl
  | cons b rest ih =>
    rw [Runes_step _ (List.cons_ne_nil _ _), DecodeRune_ascii b rest (h b (List.mem_cons_self _ _))]
    simp only [List.drop_succ_cons, List.drop_zero]
    rw [ih (fun x hx => h x (List.mem_cons_of_mem _ hx))]

/-! ## Lemmas on bytes.Fields -/

theorem asciiSpace_eq (b : Nat) : asciiSpace b = if isSixSpace b then 1 else 0 := by
  unfold asciiSpace isSixSpace
  by_cases h : b = 0x09 ∨ b = 0x0A ∨ b = 0x0B ∨ b = 0x0C ∨ b = 0x0D ∨ b = 0x20
  · rw [if_pos h]; rcases h with h | h | h | h | h | h <;> subst h <;> rfl
  · rw [if_neg h]
    have : ¬ (b = 0x20 ∨ b = 0x09 ∨ b = 0x0A ∨ b = 0x0D ∨ b = 0x0C ∨ b = 0x0B) := by
      intro h2; apply h; rcases h2 with h2 | h2 | h2 | h2 | h2 | h2 <;> simp [h2]
    simp [this]

theorem IsSpace_ascii (b : Nat) (hb : b < 0x80) : IsSpace b = isSixSpace b := by
  unfold IsSpace isSixSpace
  have h1 : b ≤ 0xFF := by omega
  rw [if_pos h1]
  have h2 : b ≠ 0x85 := by omega
  have h3 : b ≠ 0xA0 := by omega
  simp only [h2, h3, or_false]
  by_cases h : b = 0x20 ∨ b = 0x09 ∨ b = 0x0A ∨ b = 0x0D ∨ b = 0x0C ∨ b = 0x0B
  · rcases h with h | h | h | h | h | h <;> subst h <;> rfl
  · have : ¬ (b = 0x09 ∨ b = 0x0A ∨ b = 0x0B ∨ b = 0x0C ∨ b = 0x0D ∨ b = 0x20) := by
      intro h2; apply h; rcases h2 with h2 | h2 | h2 | h2 | h2 | h2 <;> simp [h2]
    simp [h, this]

theorem fieldsScan_n (s : List Nat) : ∀ st : FieldsScan,
    (st.wasSpace = 1 → (s.foldl fieldsScanStep st).n = st.n + runsFrom isSixSpace false s) ∧
    (st.wasSpace = 0 → (s.foldl fieldsScanStep st).n + 1 = st.n + runsFrom isSixSpace true s) := by
  induction s with
  | nil => intro st; simp [runsFrom]
  | cons b rest ih =>
    intro st
    simp only [List.foldl_cons, runsFrom]
    by_cases hb : isSixSpace b = true
    · have hw : (fieldsScanStep st b).wasSpace = 1 := by simp [fieldsScanStep, asciiSpace_eq, hb]
      have hn : (fieldsScanStep st b).n = st.n := by simp [fieldsScanStep, asciiSpace_eq, hb]
      have := (ih (fieldsScanStep st b)).1 hw
      rw [hn] at this
      simp only [hb, if_true, this]
      constructor
      · intro _; simp
      · intro _; omega
    · have hw : (fieldsScanStep st b).wasSpace = 0 := by simp [fieldsScanStep, asciiSpace_eq, hb]
      have hn : (fieldsScanStep st b).n = st.n + st.wasSpace := by
        simp [fieldsScanStep, asciiSpace_eq, hb]
      have := (ih (fieldsScanStep st b)).2 hw
      rw [hn] at this
      simp only [hb, Bool.false_eq_true, if_false]
      constructor <;> intro h0 <;> rw [h0] at this <;> omega

theorem lor_ge_iff (a b : Nat) : 0x80 ≤ a ||| b ↔ 0x80 ≤ a ∨ 0x80 ≤ b := by
  constructor
  · intro h
    by_contra hn
    push_neg at hn
    have : a ||| b < 2 ^ 7 := Nat.or_lt_two_pow (by omega) (by omega)
    omega
  · intro h
    have h1 : a ≤ a ||| b := Nat.le_of_testBit (fun i hi => by simp [hi])
    have h2 : b ≤ a ||| b := Nat.le_of_testBit (fun i hi => by simp [hi])
    omega

theorem fieldsScan_setBits (s : List Nat) : ∀ st : FieldsScan,
    (0x80 ≤ (s.foldl fieldsScanStep st).setBits ↔ 0x80 ≤ st.setBits ∨ ∃ b ∈ s, 0x80 ≤ b) := by
  induction s with
  | nil => intro st; simp
  | cons b rest ih =>
    intro st
    simp only [List.foldl_cons, ih, List.mem_cons, exists_eq_or_imp]
    have : (fieldsScanStep st b).setBits = st.setBits ||| b := rfl
    rw [this, lor_ge_iff, or_assoc]

theorem fieldsFunc_decode (rest : List Nat) (hr : rest ≠ []) :
    (if rest.getD 0 0 ≥ RuneSelf then DecodeRune rest else (rest.getD 0 0, 1)) =
      DecodeRune rest := by
  cases rest with
  | nil => exact absurd rfl hr
  | cons b tl =>
    simp only [List.getD_cons_zero, RuneSelf]
    split_ifs with h
    · rfl
    · rw [DecodeRune_ascii b tl (by omega)]

theorem fieldsFuncLoop_count (f : Nat → Bool) (fuel : Nat) : ∀ (st : SpanState) (rest : List Nat),
    rest.length ≤ fuel →
    (fieldsFuncLoop f fuel st rest).spans.length +
        (if (fieldsFuncLoop f fuel st rest).start.isSome then 1 else 0) =
      st.spans.length + runsFrom f st.start.isSome (Runes rest) := by
  induction fuel with
  | zero =>
    intro st rest h
    have hs : rest = [] := List.length_eq_zero.1 (Nat.le_zero.1 h)
    subst hs
    simp [fieldsFuncLoop, Runes_nil, runsFrom]
  | succ n ih =>
    intro st rest h
    by_cases hr : rest = []
    · subst hr
      simp [fieldsFuncLoop, Runes_nil, runsFrom]
    · have hlen : 0 < rest.length := List.length_pos.2 hr
      have hpos := DecodeRune_size_pos rest hr
      have hdrop : (rest.drop (DecodeRune rest).2).length ≤ n := by
        rw [List.length_drop]; omega
      rw [Runes_step rest hr]
      simp only [fieldsFuncLoop, hlen, gt_iff_lt, if_true, fieldsFunc_decode rest hr, runsFrom]
      by_cases hf : f (DecodeRune rest).1 = true
      · cases hst : st.start with
        | none =>
          simp only [hf, if_true]
          rw [ih _ _ hdrop]
          simp [hst]
        | some b =>
          simp only [hf, if_true]
          rw [ih _ _ hdrop]
          simp
          omega
      · cases hst : st.start with
        | none =>
          simp only [hf, Bool.false_eq_true, if_false]
          rw [ih _ _ hdrop]
          simp
        | some b =>
          simp only [hf, Bool.false_eq_true, if_false]
          rw [ih _ _ hdrop]
          simp [hst]

theorem fieldsFuncSpans_length (s : List Nat) (f : Nat → Bool) :
    (fieldsFuncSpans s f).length = countRuns f (Runes s) := by
  have h := fieldsFuncLoop_count f s.length ⟨0, none, []⟩ s (Nat.le_refl _)
  rw [← (runsFrom_eq_split f (Runes s)).1]
  unfold fieldsFuncSpans
  simp only [List.length_nil, Nat.zero_add, Option.isSome_none] at h
  rw [← h]
  generalize fieldsFuncLoop f s.length ⟨0, none, []⟩ s = st
  cases st with
  | mk i start spans =>
    cases start with
    | none => simp
    | some b => simp

/-- The word count as a count of runs: runes are cut at the runes
`unicode.IsSpace` accepts. -/
theorem lenFields_eq_runs (s : List Nat) : lenFields s = countRuns IsSpace (Runes s) := by
  unfold lenFields
  have hbits := fieldsScan_setBits s ⟨0, 1, 0⟩
  have hn := (fieldsScan_n s ⟨0, 1, 0⟩).1 rfl
  simp only [Nat.zero_add, Nat.not_le_of_lt (show 0 < 0x80 by decide), false_or] at hbits hn
  simp only [fieldsScan, RuneSelf, ge_iff_le]
  split_ifs with h
  · exact fieldsFuncSpans_length s IsSpace
  · have hall : ∀ b ∈ s, b < 0x80 := by
      intro b hb
      by_contra hge
      exact h (hbits.2 ⟨b, hb, by omega⟩)
    rw [hn, (runsFrom_eq_split isSixSpace s).1, Runes_ascii s hall]
    exact countRuns_congr _ _ s (fun x hx => (IsSpace_ascii x (hall x hx)).symm)

/-! ## Lemmas on encoding and on well-formed sequences -/

theorem DecodeRune_encode (c : Nat) (rest : List Nat) (hc : isScalarValue c) :
    DecodeRune (utf8Encode c ++ rest) = (c, (utf8Encode c).length) := by
  unfold isScalarValue at hc
  unfold utf8Encode
  split_ifs with h1 h2 h3
  · exact DecodeRune_ascii c rest h1
  · have hf : first (0xC0 + c / 64) = 0x02 := first_s1 _ (by omega)
    simp only [DecodeRune, List.cons_append, List.nil_append, List.length_cons, List.getD_cons_zero,
      List.getD_cons_succ, hf, acceptRanges]
    norm_num
    split_ifs <;> first | omega | (simp only [Prod.mk.injEq, and_true]; omega)
  · have hb : 0xE0 + c / 4096 = 0xE0 ∨ (0xE1 ≤ 0xE0 + c / 4096 ∧ 0xE0 + c / 4096 ≤ 0xEC) ∨
        0xE0 + c / 4096 = 0xED ∨ (0xEE ≤ 0xE0 + c / 4096 ∧ 0xE0 + c / 4096 ≤ 0xEF) := by omega
    rcases hb with hb | hb | hb | hb
    · have hf : first (0xE0 + c / 4096) = 0x13 := by rw [hb]; exact first_s2
      simp only [DecodeRune, List.cons_append, List.nil_append, List.length_cons,
        List.getD_cons_zero, List.getD_cons_succ, hf, acceptRanges]
      norm_num
      split_ifs <;> first | omega | (simp only [Prod.mk.injEq, and_true]; omega)
    · have hf : first (0xE0 + c / 4096) = 0x03 := first_s3 _ (Or.inl hb)
      simp only [DecodeRune, List.cons_append, List.nil_append, List.length_cons,
        List.getD_cons_zero, List.getD_cons_succ, hf, acceptRanges]
      norm_num
      split_ifs <;> first | omega | (simp only [Prod.mk.injEq, and_true]; omega)
    · have hf : first (0xE0 + c / 4096) = 0x23 := by rw [hb]; exact first_s4
      simp only [DecodeRune, List.cons_append, List.nil_append, List.length_cons,
        List.getD_cons_zero, List.getD_cons_succ, hf, acceptRanges]
      norm_num
      split_ifs <;> first | omega | (simp only [Prod.mk.injEq, and_true]; omega)
    · have hf : first (0xE0 + c / 4096) = 0x03 := first_s3 _ (Or.inr hb)
      simp only [DecodeRune, List.cons_append, List.nil_append, List.length_cons,
        List.getD_cons_zero, List.getD_cons_succ, hf, acceptRanges]
      norm_num
      split_ifs <;> first | omega | (simp only [Prod.mk.injEq, and_true]; omega)
  · have hb : 0xF0 + c / 262144 = 0xF0 ∨ (0xF1 ≤ 0xF0 + c / 262144 ∧ 0xF0 + c / 262144 ≤ 0xF3) ∨
        0xF0 + c / 262144 = 0xF4 := by omega
    rcases hb with hb | hb | hb
    · have hf : first (0xF0 + c / 262144) = 0x34 := by rw [hb]; exact first_s5
      simp only [DecodeRune, List.cons_append, List.nil_append, List.length_cons,
        List.getD_cons_zero, List.getD_cons_succ, hf, acceptRanges]
      norm_num
      split_ifs <;> first | omega | (simp only [Prod.mk.injEq, and_true]; omega)
    · have hf : first (0xF0 + c / 262144) = 0x04 := first_s6 _ hb
      simp only [DecodeRune, List.cons_append, List.nil_append, List.length_cons,
        List.getD_cons_zero, List.getD_cons_succ, hf, acceptRanges]
      norm_num
      split_ifs <;> first | omega | (simp only [Prod.mk.injEq, and_true]; omega)
    · have hf : first (0xF0 + c / 262144) = 0x44 := by rw [hb]; exact first_s7
      simp only [DecodeRune, List.cons_append, List.nil_append, List.length_cons,
        List.getD_cons_zero, List.getD_cons_succ, hf, acceptRanges]
      norm_num
      split_ifs <;> first | omega | (simp only [Prod.mk.injEq, and_true]; omega)

set_option maxHeartbeats 1600000 in
theorem DecodeRune_size_eq (s : List Nat) (hs : s ≠ []) :
    (DecodeRune s).2 = max 1 (wellFormedLen s) := by
  have hlen : 1 ≤ s.length := List.length_pos.2 hs
  unfold DecodeRune wellFormedLen
  dsimp only
  generalize s.getD 0 0 = b0
  generalize s.getD 1 0 = b1
  generalize s.getD 2 0 = b2
  generalize s.getD 3 0 = b3
  generalize s.length = n at hlen ⊢
  rw [if_neg (show ¬ n = 0 by omega), if_neg (show ¬ n < 1 by omega)]
  have hb : b0 < 0x80 ∨ ((0x80 ≤ b0 ∧ b0 < 0xC2) ∨ 0xF5 ≤ b0) ∨ (0xC2 ≤ b0 ∧ b0 ≤ 0xDF) ∨
      b0 = 0xE0 ∨ (0xE1 ≤ b0 ∧ b0 ≤ 0xEC) ∨ b0 = 0xED ∨ (0xEE ≤ b0 ∧ b0 ≤ 0xEF) ∨ b0 = 0xF0 ∨
      (0xF1 ≤ b0 ∧ b0 ≤ 0xF3) ∨ b0 = 0xF4 := by omega
  rcases hb with hb | hb | hb | hb | hb | hb | hb | hb | hb | hb
  · rw [first_as b0 hb, if_pos (show b0 ≤ 0x7F by omega)]
    norm_num
  · rw [first_xx b0 hb, if_neg (show ¬ b0 ≤ 0x7F by omega),
      if_neg (show ¬ (0xC2 ≤ b0 ∧ b0 ≤ 0xDF) by omega), if_neg (show ¬ b0 = 0xE0 by omega),
      if_neg (show ¬ (0xE1 ≤ b0 ∧ b0 ≤ 0xEC) by omega), if_neg (show ¬ b0 = 0xED by omega),
      if_neg (show ¬ (0xEE ≤ b0 ∧ b0 ≤ 0xEF) by omega), if_neg (show ¬ b0 = 0xF0 by omega),
      if_neg (show ¬ (0xF1 ≤ b0 ∧ b0 ≤ 0xF3) by omega), if_neg (show ¬ b0 = 0xF4 by omega)]
    norm_num
  · rw [first_s1 b0 hb, if_neg (show ¬ b0 ≤ 0x7F by omega), if_pos hb]
    norm_num [acceptRanges]
    split_ifs <;> (try dsimp only) <;> omega
  · rw [if_neg (show ¬ b0 ≤ 0x7F by omega),
      if_neg (show ¬ (0xC2 ≤ b0 ∧ b0 ≤ 0xDF) by omega), if_pos hb]
    subst hb
    rw [first_s2]
    norm_num [acceptRanges]
    split_ifs <;> (try dsimp only) <;> omega
  · rw [first_s3 b0 (Or.inl hb), if_neg (show ¬ b0 ≤ 0x7F by omega),
      if_neg (show ¬ (0xC2 ≤ b0 ∧ b0 ≤ 0xDF) by omega), if_neg (show ¬ b0 = 0xE0 by omega),
      if_pos hb]
    norm_num [acceptRanges]
    split_ifs <;> (try dsimp only) <;> omega
  · rw [if_neg (show ¬ b0 ≤ 0x7F by omega),
      if_neg (show ¬ (0xC2 ≤ b0 ∧ b0 ≤ 0xDF) by omega), if_neg (show ¬ b0 = 0xE0 by omega),
      if_neg (show ¬ (0xE1 ≤ b0 ∧ b0 ≤ 0xEC) by omega), if_pos hb]
    subst hb
    rw [first_s4]
    norm_num [acceptRanges]
    split_ifs <;> (try dsimp only) <;> omega
  · rw [first_s3 b0 (Or.inr hb), if_neg (show ¬ b0 ≤ 0x7F by omega),
      if_neg (show ¬ (0xC2 ≤ b0 ∧ b0 ≤ 0xDF) by omega), if_neg (show ¬ b0 = 0xE0 by omega),
      if_neg (show ¬ (0xE1 ≤ b0 ∧ b0 ≤ 0xEC) by omega), if_neg (show ¬ b0 = 0xED by omega),
      if_pos hb]
    norm_num [acceptRanges]
    split_ifs <;> (try dsimp only) <;> omega
  · rw [if_neg (show ¬ b0 ≤ 0x7F by omega),
      if_neg (show ¬ (0xC2 ≤ b0 ∧ b0 ≤ 0xDF) by omega), if_neg (show ¬ b0 = 0xE0 by omega),
      if_neg (show ¬ (0xE1 ≤ b0 ∧ b0 ≤ 0xEC) by omega), if_neg (show ¬ b0 = 0xED by omega),
      if_neg (show ¬ (0xEE ≤ b0 ∧ b0 ≤ 0xEF) by omega), if_pos hb]
    subst hb
    rw [first_s5]
    norm_num [acceptRanges]
    split_ifs <;> (try dsimp only) <;> omega
  · rw [first_s6 b0 hb, if_neg (show ¬ b0 ≤ 0x7F by omega),
      if_neg (show ¬ (0xC2 ≤ b0 ∧ b0 ≤ 0xDF) by omega), if_neg (show ¬ b0 = 0xE0 by omega),
      if_neg (show ¬ (0xE1 ≤ b0 ∧ b0 ≤ 0xEC) by omega), if_neg (show ¬ b0 = 0xED by omega),
      if_neg (show ¬ (0xEE ≤ b0 ∧ b0 ≤ 0xEF) by omega), if_neg (show ¬ b0 = 0xF0 by omega),
      if_pos hb]
    norm_num [acceptRanges]
    split_ifs <;> (try dsimp only) <;> omega
  · rw [if_neg (show ¬ b0 ≤ 0x7F by omega),
      if_neg (show ¬ (0xC2 ≤ b0 ∧ b0 ≤ 0xDF) by omega), if_neg (show ¬ b0 = 0xE0 by omega),
      if_neg (show ¬ (0xE1 ≤ b0 ∧ b0 ≤ 0xEC) by omega), if_neg (show ¬ b0 = 0xED by omega),
      if_neg (show ¬ (0xEE ≤ b0 ∧ b0 ≤ 0xEF) by omega), if_neg (show ¬ b0 = 0xF0 by omega),
      if_neg (show ¬ (0xF1 ≤ b0 ∧ b0 ≤ 0xF3) by omega), if_pos hb]
    subst hb
    rw [first_s7]
    norm_num [acceptRanges]
    split_ifs <;> (try dsimp only) <;> omega

theorem utf8Encode_ne_nil (c : Nat) : utf8Encode c ≠ [] := by
  unfold utf8Encode
  split_ifs <;> simp

/-- Decoding undoes encoding: `bytes.Runes` of an encoded sequence of scalar
values is that sequence. -/
theorem Runes_utf8EncodeAll (cps : List Nat) (h : ∀ c ∈ cps, isScalarValue c) :
    Runes (utf8EncodeAll cps) = cps := by
  induction cps with
  | nil => rfl
  | cons c cs ih =>
    have hc := h c (List.mem_cons_self _ _)
    have hcs : ∀ x ∈ cs, isScalarValue x := fun x hx => h x (List.mem_cons_of_mem _ hx)
    have hcons : utf8EncodeAll (c :: cs) = utf8Encode c ++ utf8EncodeAll cs := by
      simp [utf8EncodeAll, List.flatMap_cons]
    rw [hcons, Runes_step _ (by simp [utf8Encode_ne_nil c]), DecodeRune_encode c _ hc]
    simp only [List.drop_left, ih hcs]

theorem unitsLoop_length (fuel : Nat) : ∀ s : List Nat, s.length ≤ fuel →
    (unitsLoop fuel s).length = (runesLoop fuel s).length := by
  induction fuel with
  | zero => intro s _; rfl
  | succ n ih =>
    intro s h
    by_cases hs : s = []
    · subst hs; simp [unitsLoop, runesLoop]
    · have hlen : 0 < s.length := List.length_pos.2 hs
      have hne : ¬ s.length = 0 := by omega
      have hsz := DecodeRune_size_eq s hs
      simp only [unitsLoop, runesLoop, hne, hlen, gt_iff_lt, if_true, if_false]
      by_cases hw : wellFormedLen s = 0
      · rw [hw] at hsz
        simp only [hw, if_true, hsz, Nat.max_self, Nat.zero_le, max_eq_left, List.length_cons]
        rw [ih _ (by rw [List.length_drop]; omega)]
      · have hsz2 : (DecodeRune s).2 = wellFormedLen s := by omega
        simp only [hw, if_false, hsz2, List.length_cons]
        rw [ih _ (by rw [List.length_drop]; omega)]

theorem count_true_false (l : List Bool) : l.count true + l.count false = l.length := by
  induction l with
  | nil => rfl
  | cons b t ih => cases b <;> simp [List.count_cons] <;> omega

/-! ## Lemmas on utf8.RuneCount -/

set_option maxHeartbeats 1600000 in
theorem runeCountSize_eq (s : List Nat) (hs : s ≠ []) : runeCountSize s = (DecodeRune s).2 := by
  have hlen : 1 ≤ s.length := List.length_pos.2 hs
  unfold DecodeRune runeCountSize
  dsimp only
  generalize s.getD 0 0 = b0
  generalize s.getD 1 0 = b1
  generalize s.getD 2 0 = b2
  generalize s.getD 3 0 = b3
  generalize s.length = n at hlen ⊢
  rw [if_neg (show ¬ n < 1 by omega)]
  have hb : b0 < 0x80 ∨ ((0x80 ≤ b0 ∧ b0 < 0xC2) ∨ 0xF5 ≤ b0) ∨ (0xC2 ≤ b0 ∧ b0 ≤ 0xDF) ∨
      b0 = 0xE0 ∨ ((0xE1 ≤ b0 ∧ b0 ≤ 0xEC) ∨ (0xEE ≤ b0 ∧ b0 ≤ 0xEF)) ∨ b0 = 0xED ∨ b0 = 0xF0 ∨
      (0xF1 ≤ b0 ∧ b0 ≤ 0xF3) ∨ b0 = 0xF4 := by omega
  rcases hb with hb | hb | hb | hb | hb | hb | hb | hb | hb
  · rw [first_as b0 hb, if_pos (show b0 < RuneSelf from hb)]
    norm_num
  · rw [first_xx b0 hb, if_neg (show ¬ b0 < RuneSelf by unfold RuneSelf; omega)]
    norm_num
  · rw [first_s1 b0 hb, if_neg (show ¬ b0 < RuneSelf by unfold RuneSelf; omega)]
    norm_num [acceptRanges]
    split_ifs <;> rfl
  · rw [if_neg (show ¬ b0 < RuneSelf by unfold RuneSelf; omega)]
    subst hb
    rw [first_s2]
    norm_num [acceptRanges]
    split_ifs <;> rfl
  · rw [first_s3 b0 hb, if_neg (show ¬ b0 < RuneSelf by unfold RuneSelf; omega)]
    norm_num [acceptRanges]
    split_ifs <;> rfl
  · rw [if_neg (show ¬ b0 < RuneSelf by unfold RuneSelf; omega)]
    subst hb
    rw [first_s4]
    norm_num [acceptRanges]
    split_ifs <;> rfl
  · rw [if_neg (show ¬ b0 < RuneSelf by unfold RuneSelf; omega)]
    subst hb
    rw [first_s5]
    norm_num [acceptRanges]
    split_ifs <;> rfl
  · rw [first_s6 b0 hb, if_neg (show ¬ b0 < RuneSelf by unfold RuneSelf; omega)]
    norm_num [acceptRanges]
    split_ifs <;> rfl
  · rw [if_neg (show ¬ b0 < RuneSelf by unfold RuneSelf; omega)]
    subst hb
    rw [first_s7]
    norm_num [acceptRanges]
    split_ifs <;> rfl

theorem runeCountLoop_eq (fuel : Nat) : ∀ (n : Nat) (s : List Nat), s.length ≤ fuel →
    runeCountLoop fuel n s = n + (runesLoop fuel s).length := by
  induction fuel with
  | zero => intro n s _; rfl
  | succ k ih =>
    intro n s h
    by_cases hs : s = []
    · subst hs; simp [runeCountLoop, runesLoop]
    · have hlen : 0 < s.length := List.length_pos.2 hs
      have hpos := DecodeRune_size_pos s hs
      simp only [runeCountLoop, runesLoop, hlen, gt_iff_lt, if_true, runeCountSize_eq s hs,
        List.length_cons]
      rw [ih _ _ (by rw [List.length_drop]; omega)]
      omega

/-- The slice `bytes.Runes` allocates, of length `utf8.RuneCount(s)`, is
filled exactly by its loop. -/
theorem RuneCount_eq_length_Runes (s : List Nat) : RuneCount s = (Runes s).length := by
  unfold RuneCount Runes
  rw [runeCountLoop_eq s.length 0 s (Nat.le_refl _), Nat.zero_add]

/-! ## Claims on parseArgs -/

/-- C7: on a successful parse of a token list without help token, all four
selectors are true when the list holds no counting flag, and otherwise each
selector is true exactly when its flag occurs in the list, in short or long
form; a single non-empty non-flag token F parses to the file path F with all
four selectors true. -/
theorem parseArgs_selectors (args : List String) (c : config)
    (hok : parseArgs args = .ok c) (hno : ∀ a ∈ args, a ≠ "-h" ∧ a ≠ "--help") :
    ((∀ a ∈ args, isCounting a = false) →
      c.printBytes = true ∧ c.printChars = true ∧ c.printWords = true ∧ c.printLines = true) ∧
    ((∃ a ∈ args, isCounting a = true) →
      (c.printBytes = true ↔ ∃ a ∈ args, a = "-c" ∨ a = "--bytes") ∧
      (c.printChars = true ↔ ∃ a ∈ args, a = "-m" ∨ a = "--chars") ∧
      (c.printWords = true ↔ ∃ a ∈ args, a = "-w" ∨ a = "--words") ∧
      (c.printLines = true ↔ ∃ a ∈ args, a = "-l" ∨ a = "--lines")) ∧
    (∀ F : String, F ≠ "" → isFlag F = false →
      parseArgs [F] = .ok ⟨F, false, true, true, true, true⟩) := by
  obtain ⟨-, c0, hl, hf⟩ := parseArgs_unfold args c hok
  obtain ⟨m, b, ch, w, l⟩ := parseLoop_ok args config.zero c0 hl
  simp only [config.zero, Bool.false_or] at m b ch w l
  have hm : c0.printManual = false := by
    rw [m, List.any_eq_false]
    intro a ha
    have := hno a ha
    simp [isHelp, this.1, this.2]
  have hb : (args.any isBytes = true) ↔ ∃ a ∈ args, a = "-c" ∨ a = "--bytes" := by
    simp [List.any_eq_true, isBytes]
  have hch : (args.any isChars = true) ↔ ∃ a ∈ args, a = "-m" ∨ a = "--chars" := by
    simp [List.any_eq_true, isChars]
  have hw : (args.any isWords = true) ↔ ∃ a ∈ args, a = "-w" ∨ a = "--words" := by
    simp [List.any_eq_true, isWords]
  have hlin : (args.any isLines = true) ↔ ∃ a ∈ args, a = "-l" ∨ a = "--lines" := by
    simp [List.any_eq_true, isLines]
  refine ⟨?_, ?_, ?_⟩
  · intro hnone
    have e1 : c0.printBytes = false := by
      rw [b, List.any_eq_false]; intro a ha
      have := hnone a ha; simp only [isCounting, Bool.or_eq_false_iff] at this; simp [this]
    have e2 : c0.printChars = false := by
      rw [ch, List.any_eq_false]; intro a ha
      have := hnone a ha; simp only [isCounting, Bool.or_eq_false_iff] at this; simp [this]
    have e3 : c0.printWords = false := by
      rw [w, List.any_eq_false]; intro a ha
      have := hnone a ha; simp only [isCounting, Bool.or_eq_false_iff] at this; simp [this]
    have e4 : c0.printLines = false := by
      rw [l, List.any_eq_false]; intro a ha
      have := hnone a ha; simp only [isCounting, Bool.or_eq_false_iff] at this; simp [this]
    simp only [parseFinish, hm, e1, e2, e3, e4, Bool.or_self, Bool.and_self, Bool.false_eq_true,
      ↓reduceIte, Bool.not_false, Except.ok.injEq] at hf
    subst hf
    simp
  · intro hsome
    obtain ⟨a, ha, hc⟩ := hsome
    have hany : (c0.printBytes || c0.printChars || c0.printWords || c0.printLines) = true := by
      rw [b, ch, w, l]
      simp only [isCounting, Bool.or_eq_true] at hc
      simp only [Bool.or_eq_true, List.any_eq_true]
      rcases hc with ((hc | hc) | hc) | hc
      · exact Or.inl (Or.inl (Or.inl ⟨a, ha, hc⟩))
      · exact Or.inl (Or.inl (Or.inr ⟨a, ha, hc⟩))
      · exact Or.inl (Or.inr ⟨a, ha, hc⟩)
      · exact Or.inr ⟨a, ha, hc⟩
    have hc0 : c = c0 := by
      unfold parseFinish at hf
      rw [hm] at hf
      simp only [Bool.false_and, Bool.false_eq_true, ↓reduceIte, Bool.not_false, Bool.true_and] at hf
      split_ifs at hf with h1
      · exfalso
        simp only [Bool.and_eq_true, Bool.not_eq_true'] at h1
        obtain ⟨⟨⟨q1, q2⟩, q3⟩, q4⟩ := h1
        rw [q1, q2, q3, q4] at hany
        cases hany
      · simp only [Except.ok.injEq] at hf
        exact hf.symm
    subst hc0
    rw [b, ch, w, l]
    exact ⟨hb, hch, hw, hlin⟩
  · intro F hF hflag
    simp only [isFlag, isCounting, isHelp, isBytes, isChars, isWords, isLines,
      Bool.or_eq_false_iff, decide_eq_false_iff_not] at hflag
    simp [parseArgs, parseLoop, parseStep, parseFinish, config.zero, hflag]

/-- C7, witness: the list `-w -l f`. -/
theorem parseArgs_selectors_witness :
    c7Config.printWords = true ∧ c7Config.printLines = true ∧
    (c7Config.printBytes = true ↔ ∃ a ∈ ["-w", "-l", "f"], a = "-c" ∨ a = "--bytes") :=
  have h := parseArgs_selectors ["-w", "-l", "f"] c7Config (by decide) (by decide)
  ⟨by decide, by decide, (h.2.1 ⟨"-w", by decide, by decide⟩).1⟩

/-- C8, counterexample: the list of the empty token and `file2` holds two
non-flag tokens and is accepted. -/
theorem parseArgs_empty_token_accepted :
    1 < (nonFlags ["", "file2"]).length ∧
    parseArgs ["", "file2"] = .ok ⟨"file2", false, true, true, true, true⟩ := by
  decide

/-- C8, amended: a token list with more than one non-flag token fails with
the multiple-filenames error, raised at one of its non-flag tokens, unless
every non-flag token before the last one is the empty string. -/
theorem parseArgs_multiple_files (args : List String) (h1 : 1 < (nonFlags args).length)
    (h2 : ∃ x ∈ (nonFlags args).dropLast, x ≠ "") :
    ∃ a ∈ args, isFlag a = false ∧ parseArgs args = .error (errMultiple a) := by
  have hne : args.length ≠ 0 := by
    intro h0
    rw [List.length_eq_zero.1 h0] at h1
    simp [nonFlags] at h1
  obtain ⟨a, ha, hf, he⟩ := parseLoop_two_files args config.zero h2
  exact ⟨a, ha, hf, by simp only [parseArgs, hne, he, if_false]⟩

/-- C8, witness: the list `file1 file2`. -/
theorem parseArgs_multiple_files_witness :
    ∃ a ∈ ["file1", "file2"], isFlag a = false ∧
      parseArgs ["file1", "file2"] = .error (errMultiple a) :=
  parseArgs_multiple_files ["file1", "file2"] (by decide) ⟨"file1", by decide, by decide⟩

/-- C9: a token list that holds a help token and a counting flag, wherever
they stand, is rejected; with at most one non-flag token the error is the
conflicting-flags error. -/
theorem parseArgs_help_conflict (args : List String)
    (hh : ∃ a ∈ args, a = "-h" ∨ a = "--help") (hc : ∃ a ∈ args, isCounting a = true) :
    (∃ e, parseArgs args = .error e) ∧
    ((nonFlags args).length ≤ 1 → parseArgs args = .error errConflict) := by
  have hne : args.length ≠ 0 := by
    intro h0
    obtain ⟨a, ha, -⟩ := hh
    rw [List.length_eq_zero.1 h0] at ha
    cases ha
  have hfin : ∀ c0, parseLoop config.zero args = .ok c0 → parseFinish c0 = .error errConflict := by
    intro c0 hl
    obtain ⟨m, b, ch, w, l⟩ := parseLoop_ok args config.zero c0 hl
    simp only [config.zero, Bool.false_or] at m b ch w l
    have hm : c0.printManual = true := by
      rw [m, List.any_eq_true]
      obtain ⟨a, ha, h⟩ := hh
      exact ⟨a, ha, by simpa [isHelp] using h⟩
    have hany : (c0.printBytes || c0.printChars || c0.printWords || c0.printLines) = true := by
      obtain ⟨a, ha, hca⟩ := hc
      rw [b, ch, w, l]
      simp only [isCounting, Bool.or_eq_true] at hca
      simp only [Bool.or_eq_true, List.any_eq_true]
      rcases hca with ((hca | hca) | hca) | hca
      · exact Or.inl (Or.inl (Or.inl ⟨a, ha, hca⟩))
      · exact Or.inl (Or.inl (Or.inr ⟨a, ha, hca⟩))
      · exact Or.inl (Or.inr ⟨a, ha, hca⟩)
      · exact Or.inr ⟨a, ha, hca⟩
    simp only [parseFinish, hm, hany, Bool.and_self, if_true]
  constructor
  · cases hl : parseLoop config.zero args with
    | error e => exact ⟨e, by simp only [parseArgs, hne, hl, if_false]⟩
    | ok c0 => exact ⟨errConflict, by simp only [parseArgs, hne, hl, if_false, hfin c0 hl]⟩
  · intro hle
    obtain ⟨c0, hl⟩ := parseLoop_total args config.zero (Or.inr ⟨rfl, hle⟩)
    simp only [parseArgs, hne, hl, if_false, hfin c0 hl]

/-- C9, witness: the list `-l f --help`. -/
theorem parseArgs_help_conflict_witness :
    (∃ e, parseArgs ["-l", "f", "--help"] = .error e) ∧
    ((nonFlags ["-l", "f", "--help"]).length ≤ 1 →
      parseArgs ["-l", "f", "--help"] = .error errConflict) :=
  parseArgs_help_conflict ["-l", "f", "--help"] ⟨"--help", by decide, by decide⟩
    ⟨"-l", by decide, by decide⟩

/-- C10: the empty token list is rejected with the empty-arguments error, and
no other token list is rejected with that error. -/
theorem parseArgs_empty :
    parseArgs [] = .error errEmptyArgs ∧
    ∀ args : List String, parseArgs args = .error errEmptyArgs → args = [] := by
  refine ⟨rfl, ?_⟩
  intro args h
  by_contra hne
  have hlen : args.length ≠ 0 := fun h0 => hne (List.length_eq_zero.1 h0)
  simp only [parseArgs, hlen, if_false] at h
  cases hl : parseLoop config.zero args with
  | error e =>
    rw [hl] at h
    simp only [Except.error.injEq] at h
    obtain ⟨a, -, -, he⟩ := parseLoop_error args config.zero e hl
    rw [h] at he
    exact errMultiple_ne_errEmptyArgs a he.symm
  | ok c0 =>
    rw [hl] at h
    simp only [parseFinish] at h
    split_ifs at h
    exact absurd h (by decide)

/-- C10, witness: the second half at the empty list itself. -/
theorem parseArgs_empty_witness :
    parseArgs [] = .error errEmptyArgs ∧ ([] : List String) = [] :=
  ⟨parseArgs_empty.1, parseArgs_empty.2 [] parseArgs_empty.1⟩

/-! ## Claims on the counts -/

/-- C3, counterexample: in the buffer `a`, U+00A0, `b` (bytes 61 C2 A0 62)
no byte is one of the six white-space characters, so it is a single run, yet
the word count is 2. -/
theorem wordCount_nbsp :
    countRuns isSixSpace [0x61, 0xC2, 0xA0, 0x62] = 1 ∧ wordCount [0x61, 0xC2, 0xA0, 0x62] = 2 := by
  decide

/-- C3, amended: the word count of a buffer is the number of maximal non-empty
runs of non-white-space code points among the code points `bytes.Runes`
decodes from it, where white space is what `unicode.IsSpace` accepts: the six
characters space, tab, newline, carriage return, form feed, vertical tab and
also U+0085, U+00A0, U+1680, U+2000..U+200A, U+2028, U+2029, U+202F, U+205F
and U+3000. The three examples of the claim hold. -/
theorem wordCount_eq_runs (B : List Nat) :
    wordCount B = countRuns IsSpace (Runes B) ∧
    (∀ r : Nat, IsSpace r = true ↔
      (isSixSpace r = true ∨ r = 0x85 ∨ r = 0xA0 ∨ r = 0x1680 ∨ (0x2000 ≤ r ∧ r ≤ 0x200A) ∨
        r = 0x2028 ∨ r = 0x2029 ∨ r = 0x202F ∨ r = 0x205F ∨ r = 0x3000)) ∧
    wordCount (asciiBytes "  hi  there ") = 2 ∧ wordCount (asciiBytes "") = 0 ∧
    wordCount (asciiBytes "a") = 1 := by
  refine ⟨lenFields_eq_runs B, ?_, by decide, by decide, by decide⟩
  intro r
  unfold IsSpace isSixSpace
  split_ifs with h
  · simp only [decide_eq_true_eq]
    constructor
    · intro h1; omega
    · intro h1; omega
  · simp only [decide_eq_true_eq]
    constructor
    · intro h1; omega
    · intro h1; omega

/-- C4: the line count of a buffer is the number of its bytes equal to 0x0A;
`a\nb\nc` has 2, the empty buffer 0 and `\n` 1. -/
theorem lineCount_eq_count (B : List Nat) :
    lineCount B = B.count 0x0A ∧
    lineCount (asciiBytes "a\nb\nc") = 2 ∧ lineCount (asciiBytes "") = 0 ∧
    lineCount (asciiBytes "\n") = 1 := by
  refine ⟨?_, by decide, by decide, by decide⟩
  unfold lineCount
  rw [lineCount_foldl B 0, Nat.zero_add]

/-- C5: for a buffer that is the UTF-8 encoding of a sequence of Unicode
code points (scalar values), the character count is the number of code points
of the sequence. -/
theorem charCount_valid_utf8 (B cps : List Nat) (hB : B = utf8EncodeAll cps)
    (hcp : ∀ c ∈ cps, isScalarValue c) : charCount B = cps.length := by
  rw [hB, charCount, Runes_utf8EncodeAll cps hcp]

/-- C5, witness: the euro sign, an emoji and the letter A, eight bytes. -/
theorem charCount_valid_utf8_witness :
    charCount [0xE2, 0x82, 0xAC, 0xF0, 0x9F, 0x98, 0x80, 0x41] = [0x20AC, 0x1F600, 0x41].length :=
  charCount_valid_utf8 [0xE2, 0x82, 0xAC, 0xF0, 0x9F, 0x98, 0x80, 0x41] [0x20AC, 0x1F600, 0x41]
    (by decide) (by decide)

/-- C6, counterexample: the buffer FF FF holds no valid code point and one
run of two invalid bytes, so the claim gives 1, and its character count
is 2. -/
theorem charCount_two_invalid_bytes :
    validCodePoints [0xFF, 0xFF] + invalidRuns [0xFF, 0xFF] = 1 ∧ charCount [0xFF, 0xFF] = 2 := by
  decide

/-- C6, amended: the character count of a buffer is the number of its validly
encoded code points plus one for each invalid byte: every byte at which no
well-formed encoding starts counts as one character of its own. -/
theorem charCount_eq_valid_add_invalid (B : List Nat) :
    charCount B = validCodePoints B + invalidBytes B := by
  unfold charCount validCodePoints invalidBytes Runes units
  rw [count_true_false, unitsLoop_length B.length B (Nat.le_refl _)]

/-! ## Claims on runCmd -/

/-- C1: with printManual false and an empty filePath, runCmd on the buffer B
read from the default stream returns no error and writes exactly, for each
selector that is true, in the order bytes, chars, words, lines, the count in
decimal followed by a tab (the byte count being the length of B), and then
one newline. -/
theorem runCmd_stdin_output (prog : String) (readFile : String → Except String (List Nat))
    (c : config) (B : List Nat) (hm : c.printManual = false) (hp : c.filePath = "") :
    runCmd prog readFile (.ok B) c =
      ((if c.printBytes then Nat.repr B.length ++ "\t" else "") ++
        (if c.printChars then Nat.repr (charCount B) ++ "\t" else "") ++
        (if c.printWords then Nat.repr (wordCount B) ++ "\t" else "") ++
        (if c.printLines then Nat.repr (lineCount B) ++ "\t" else "") ++ "\n", none) := by
  obtain ⟨fp, m, pb, pc, pw, pl⟩ := c
  simp only at hm hp
  subst hm hp
  cases pb <;> cases pc <;> cases pw <;> cases pl <;>
    simp [runCmd, readInput, printCounts, printfCount, charCount, wordCount, String.append_assoc]

/-- C1, witness: all four counts of `hello world\n` read from the default
stream. -/
theorem runCmd_stdin_output_witness :
    runCmd "ccwc" (fun _ => .error "no file") (.ok (asciiBytes "hello world\n"))
      ⟨"", false, true, true, true, true⟩ = ("12\t12\t2\t1\t\n", none) :=
  (runCmd_stdin_output "ccwc" (fun _ => .error "no file") ⟨"", false, true, true, true, true⟩
    (asciiBytes "hello world\n") rfl rfl).trans (by decide)

/-- The line runCmd writes for a readable file: the selected counts, then
what `fmt.Printf` makes of the file path used as a format, then a newline. -/
theorem runCmd_file_output (prog : String) (readFile : String → Except String (List Nat))
    (r : Except String (List Nat)) (c : config) (B : List Nat) (hm : c.printManual = false)
    (hp : c.filePath ≠ "") (hr : readFile c.filePath = .ok B) :
    runCmd prog readFile r c =
      ((if c.printBytes then Nat.repr B.length ++ "\t" else "") ++
        (if c.printChars then Nat.repr (charCount B) ++ "\t" else "") ++
        (if c.printWords then Nat.repr (wordCount B) ++ "\t" else "") ++
        (if c.printLines then Nat.repr (lineCount B) ++ "\t" else "") ++
        printfNoArgs c.filePath ++ "\n", none) := by
  obtain ⟨fp, m, pb, pc, pw, pl⟩ := c
  simp only at hm hp hr
  subst hm
  cases pb <;> cases pc <;> cases pw <;> cases pl <;>
    simp [runCmd, readInput, printCounts, printfCount, charCount, wordCount, String.append_assoc,
      hp, hr]

/-- A format without percent sign is written as it stands. -/
theorem printfNoArgs_plain (P : String) (h : ∀ ch ∈ P.toList, ch ≠ '%') :
    printfNoArgs P = P := by
  unfold printfNoArgs
  have h1 : P.toList.takeWhile (fun ch => ch ≠ '%') = P.toList := by
    rw [List.takeWhile_eq_self_iff]
    intro ch hch
    simpa using h ch hch
  have h2 : P.toList.dropWhile (fun ch => ch ≠ '%') = [] := by
    rw [List.dropWhile_eq_nil_iff]
    intro ch hch
    simpa using h ch hch
  simp only [doPrintfLoop, h1, h2]
  cases P with
  | mk l => rfl

/-- C2, the code at the failing input: for the file named `hi%d` that holds
`hello world\n`, with only the words selector set, runCmd writes
`2\thi%!d(MISSING)\n`, not `2\thi%d\n`. -/
theorem runCmd_percent_in_path :
    runCmd "ccwc" (oneFile "hi%d" (asciiBytes "hello world\n")) (.ok [])
      ⟨"hi%d", false, false, false, true, false⟩ = ("2\thi%!d(MISSING)\n", none) := by
  decide

/-- The directive scanner on a few formats: a plain text, a percent sign at
the end, a verb without operand (the example `hi%d` of the documentation of
package fmt), a doubled percent sign, an argument index, a star width, a
precision. -/
theorem printfNoArgs_examples :
    printfNoArgs "file.txt" = "file.txt" ∧ printfNoArgs "50%" = "50%!(NOVERB)" ∧
    printfNoArgs "hi%d" = "hi%!d(MISSING)" ∧ printfNoArgs "a%%b" = "a%b" ∧
    printfNoArgs "a%[1]d" = "a%!d(BADINDEX)" ∧ printfNoArgs "a%*d" = "a%!(BADWIDTH)%!d(MISSING)" ∧
    printfNoArgs "100%.txt" = "100%!t(MISSING)xt" := by
  decide

/-! ## The loop of parseArgs in closed form -/

/-- The loop of `parseArgs` ends with the path `fileScan` finds among the
non-flag tokens and with each boolean set when one of its tokens occurs. -/
theorem parseLoop_normal (args : List String) : ∀ c : config,
    parseLoop c args =
      match fileScan c.filePath (nonFlags args) with
      | .error e => .error e
      | .ok fp => .ok ⟨fp, c.printManual || args.any isHelp, c.printBytes || args.any isBytes,
          c.printChars || args.any isChars, c.printWords || args.any isWords,
          c.printLines || args.any isLines⟩ := by
  induction args with
  | nil => intro c; simp [parseLoop, nonFlags, fileScan]
  | cons a rest ih =>
    intro c
    cases hf : isFlag a with
    | true =>
      obtain ⟨c2, hs⟩ := parseStep_total c a (Or.inl hf)
      obtain ⟨s1, s2, s3, s4, s5, s6, -⟩ := parseStep_ok c c2 a hs
      rw [hf, if_pos rfl] at s6
      have hnf : nonFlags (a :: rest) = nonFlags rest := by simp [nonFlags, hf]
      simp only [parseLoop, hs, ih c2, hnf, s1, s2, s3, s4, s5, s6, List.any_cons, Bool.or_assoc]
    | false =>
      have hnf : nonFlags (a :: rest) = a :: nonFlags rest := by simp [nonFlags, hf]
      by_cases hp : c.filePath = ""
      · obtain ⟨c2, hs⟩ := parseStep_total c a (Or.inr hp)
        obtain ⟨s1, s2, s3, s4, s5, s6, -⟩ := parseStep_ok c c2 a hs
        rw [hf] at s6
        simp only [Bool.false_eq_true, if_false] at s6
        simp only [parseLoop, hs, ih c2, hnf, s1, s2, s3, s4, s5, s6, List.any_cons, Bool.or_assoc,
          fileScan, hp, ne_eq, not_true_eq_false, if_false]
      · simp only [parseLoop, parseStep_nonflag_error c a hf hp, hnf, fileScan, ne_eq, hp,
          not_false_eq_true, if_true]

theorem fileScan_ok (l : List String) : ∀ fp fp1 : String, fileScan fp l = .ok fp1 →
    fp1 = l.getLastD fp ∧ (∀ x ∈ l.dropLast, x = "") ∧ (l ≠ [] → fp = "") := by
  induction l with
  | nil =>
    intro fp fp1 h
    simp only [fileScan, Except.ok.injEq] at h
    simp [h]
  | cons a rest ih =>
    intro fp fp1 h
    simp only [fileScan] at h
    split_ifs at h with hp
    have hp1 : fp = "" := by simpa using hp
    obtain ⟨h1, h2, h3⟩ := ih a fp1 h
    refine ⟨by rw [List.getLastD_cons]; exact h1, ?_, fun _ => hp1⟩
    intro x hx
    cases rest with
    | nil => simp at hx
    | cons b t =>
      rw [List.dropLast_cons₂] at hx
      rcases List.mem_cons.1 hx with rfl | hx
      · exact h3 (List.cons_ne_nil _ _)
      · exact h2 x hx

theorem fileScan_total (l : List String) : ∀ fp : String, (∀ x ∈ l.dropLast, x = "") →
    (l ≠ [] → fp = "") → ∃ fp1, fileScan fp l = .ok fp1 := by
  induction l with
  | nil => intro fp _ _; exact ⟨fp, rfl⟩
  | cons a rest ih =>
    intro fp h1 h2
    have hp : fp = "" := h2 (List.cons_ne_nil _ _)
    simp only [fileScan, hp, ne_eq, not_true_eq_false, if_false]
    apply ih a
    · intro x hx
      cases rest with
      | nil => simp at hx
      | cons b t => exact h1 x (by rw [List.dropLast_cons₂]; exact List.mem_cons_of_mem _ hx)
    · intro hne
      cases rest with
      | nil => exact absurd rfl hne
      | cons b t => exact h1 a (by rw [List.dropLast_cons₂]; exact List.mem_cons_self _ _)

theorem any_perm {α : Type} (p : α → Bool) (l1 l2 : List α) (h : l1.Perm l2) :
    l1.any p = l2.any p := by
  rw [Bool.eq_iff_iff, List.any_eq_true, List.any_eq_true]
  constructor
  · rintro ⟨x, hx, hpx⟩; exact ⟨x, h.mem_iff.1 hx, hpx⟩
  · rintro ⟨x, hx, hpx⟩; exact ⟨x, h.mem_iff.2 hx, hpx⟩

/-- The checks after the loop: what an accepted configuration looks like. -/
theorem parseFinish_ok (c0 c : config) (h : parseFinish c0 = .ok c) :
    (c.printManual = true → c.printBytes = false ∧ c.printChars = false ∧
      c.printWords = false ∧ c.printLines = false) ∧
    (c.printManual = true ∨ c.printBytes = true ∨ c.printChars = true ∨ c.printWords = true ∨
      c.printLines = true) ∧
    c.filePath = c0.filePath ∧
    (c0.printManual && (c0.printBytes || c0.printChars || c0.printWords || c0.printLines)) = false := by
  obtain ⟨fp, m, b, ch, w, l⟩ := c0
  cases m <;> cases b <;> cases ch <;> cases w <;> cases l <;>
    simp [parseFinish] at h <;> subst h <;> simp

theorem parseFinish_total (c0 : config)
    (h : (c0.printManual && (c0.printBytes || c0.printChars || c0.printWords || c0.printLines)) = false) :
    ∃ c, parseFinish c0 = .ok c := by
  unfold parseFinish
  rw [h]
  simp only [Bool.false_eq_true, if_false]
  split_ifs
  · exact ⟨_, rfl⟩
  · exact ⟨_, rfl⟩

/-! ## Claims on the parsed configuration -/

/-- C11: in a configuration `parseArgs` returns, printManual excludes the
four selectors, and at least one of the five booleans is true. -/
theorem parseArgs_invariant (args : List String) (c : config) (hok : parseArgs args = .ok c) :
    (c.printManual = true → c.printBytes = false ∧ c.printChars = false ∧
      c.printWords = false ∧ c.printLines = false) ∧
    (c.printManual = true ∨ c.printBytes = true ∨ c.printChars = true ∨ c.printWords = true ∨
      c.printLines = true) := by
  obtain ⟨-, c0, -, hf⟩ := parseArgs_unfold args c hok
  exact ⟨(parseFinish_ok c0 c hf).1, (parseFinish_ok c0 c hf).2.1⟩

/-- C11, witness: the list `--help f`. -/
theorem parseArgs_invariant_witness :
    (c11Config.printManual = true → c11Config.printBytes = false ∧ c11Config.printChars = false ∧
      c11Config.printWords = false ∧ c11Config.printLines = false) ∧
    (c11Config.printManual = true ∨ c11Config.printBytes = true ∨ c11Config.printChars = true ∨
      c11Config.printWords = true ∨ c11Config.printLines = true) :=
  parseArgs_invariant ["--help", "f"] c11Config (by decide)

/-- C12: two token lists that are reorderings of each other and hold the same
non-flag tokens in the same order have the same outcome: the same error, or
equal configurations. -/
theorem parseArgs_flag_order (args1 args2 : List String) (hperm : args1.Perm args2)
    (hnf : nonFlags args1 = nonFlags args2) : parseArgs args1 = parseArgs args2 := by
  have hl : parseLoop config.zero args1 = parseLoop config.zero args2 := by
    rw [parseLoop_normal args1, parseLoop_normal args2, hnf, any_perm isHelp _ _ hperm,
      any_perm isBytes _ _ hperm, any_perm isChars _ _ hperm, any_perm isWords _ _ hperm,
      any_perm isLines _ _ hperm]
  unfold parseArgs
  rw [hl, hperm.length_eq]

/-- C12, witness: `-l f -w --bytes` and `--bytes -w -l f`. -/
theorem parseArgs_flag_order_witness :
    parseArgs ["-l", "f", "-w", "--bytes"] = parseArgs ["--bytes", "-w", "-l", "f"] :=
  parseArgs_flag_order ["-l", "f", "-w", "--bytes"] ["--bytes", "-w", "-l", "f"]
    (by decide) (by decide)

/-- C18, counterexample: the list of the empty token, `f`, `-h`, `-c` holds
two non-flag tokens of which all but the last are empty, and is rejected. -/
theorem parseArgs_empty_tokens_conflict :
    1 < (nonFlags ["", "f", "-h", "-c"]).length ∧
    (∀ x ∈ (nonFlags ["", "f", "-h", "-c"]).dropLast, x = "") ∧
    parseArgs ["", "f", "-h", "-c"] = .error errConflict := by
  decide

/-- C18, amended: on a successful parse the file path is the last non-flag
token (the empty string when there is none) and every non-flag token before
it is empty; a list with several non-flag tokens is accepted exactly when all
but the last of them are empty and the list does not hold a help token
together with a counting flag. -/
theorem parseArgs_filePath_last (args : List String) :
    (∀ c, parseArgs args = .ok c →
      c.filePath = (nonFlags args).getLastD "" ∧ ∀ x ∈ (nonFlags args).dropLast, x = "") ∧
    (1 < (nonFlags args).length →
      ((∃ c, parseArgs args = .ok c) ↔
        ((∀ x ∈ (nonFlags args).dropLast, x = "") ∧
          ¬ ((∃ a ∈ args, a = "-h" ∨ a = "--help") ∧ ∃ a ∈ args, isCounting a = true)))) := by
  have hcount : (args.any isBytes || args.any isChars || args.any isWords || args.any isLines) =
      args.any isCounting := by
    induction args with
    | nil => rfl
    | cons a rest ih =>
      simp only [List.any_cons, ← ih, isCounting]
      cases isBytes a <;> cases isChars a <;> cases isWords a <;> cases isLines a <;>
        cases rest.any isBytes <;> cases rest.any isChars <;> cases rest.any isWords <;>
        cases rest.any isLines <;> rfl
  have hfirst : ∀ c, parseArgs args = .ok c →
      (c.filePath = (nonFlags args).getLastD "" ∧ ∀ x ∈ (nonFlags args).dropLast, x = "") ∧
      (args.any isHelp && args.any isCounting) = false := by
    intro c hok
    obtain ⟨-, c0, hl, hf⟩ := parseArgs_unfold args c hok
    rw [parseLoop_normal args config.zero] at hl
    cases hs : fileScan config.zero.filePath (nonFlags args) with
    | error e => rw [hs] at hl; cases hl
    | ok fp =>
      rw [hs] at hl
      simp only [Except.ok.injEq] at hl
      obtain ⟨h1, h2, -⟩ := fileScan_ok (nonFlags args) _ fp hs
      obtain ⟨-, -, h3, h4⟩ := parseFinish_ok c0 c hf
      rw [← hl] at h3 h4
      simp only [config.zero, Bool.false_or] at h3 h4 h1
      rw [hcount] at h4
      exact ⟨⟨by rw [h3, h1], h2⟩, h4⟩
  refine ⟨fun c hok => (hfirst c hok).1, ?_⟩
  intro hlen
  have hconf : ((∃ a ∈ args, a = "-h" ∨ a = "--help") ∧ ∃ a ∈ args, isCounting a = true) ↔
      (args.any isHelp && args.any isCounting) = true := by
    simp [isHelp, List.any_eq_true]
  constructor
  · rintro ⟨c, hok⟩
    obtain ⟨⟨-, h2⟩, h3⟩ := hfirst c hok
    refine ⟨h2, ?_⟩
    rw [hconf, h3]
    simp
  · rintro ⟨h1, h2⟩
    rw [hconf] at h2
    have hne : args.length ≠ 0 := by
      intro h0
      rw [List.length_eq_zero.1 h0] at hlen
      simp [nonFlags] at hlen
    obtain ⟨fp, hs⟩ := fileScan_total (nonFlags args) "" h1 (fun _ => rfl)
    have hz : config.zero.filePath = "" := rfl
    have hl : parseLoop config.zero args = .ok ⟨fp, args.any isHelp, args.any isBytes,
        args.any isChars, args.any isWords, args.any isLines⟩ := by
      rw [parseLoop_normal args config.zero, hz, hs]
      simp [config.zero]
    obtain ⟨c, hc⟩ := parseFinish_total ⟨fp, args.any isHelp, args.any isBytes, args.any isChars,
      args.any isWords, args.any isLines⟩ (by
        simp only [hcount]
        simpa using h2)
    exact ⟨c, by simp only [parseArgs, hne, if_false, hl, hc]⟩

/-- C18, witness: the list of the empty token, `-w` and `f`. -/
theorem parseArgs_filePath_last_witness :
    c18Config.filePath = (nonFlags ["", "-w", "f"]).getLastD "" ∧
    ∀ x ∈ (nonFlags ["", "-w", "f"]).dropLast, x = "" :=
  (parseArgs_filePath_last ["", "-w", "f"]).1 c18Config (by decide)

/-! ## Claims on main -/

/-- C17: when `parseArgs` rejects the argument list, main writes nothing to
standard output, writes the error message and a newline to standard error and
exits with code 1, whatever the file system and the default stream hold; the
empty list and `--help --bytes` are such lists. -/
theorem main_usage_error (prog : String) (args : List String)
    (readFile : String → Except String (List Nat)) (r : Except String (List Nat)) (e : String)
    (h : parseArgs args = .error e) :
    main prog args readFile r = ⟨"", e ++ "\n", 1⟩ ∧
    main prog [] readFile r = ⟨"", "include at least one argument\n", 1⟩ ∧
    main prog ["--help", "--bytes"] readFile r =
      ⟨"", "usage of \"-h\" or \"--help\" with other flags is not permitted\n", 1⟩ := by
  refine ⟨?_, rfl, rfl⟩
  simp only [main, h]

/-- C17, witness: two file names. -/
theorem main_usage_error_witness :
    main "ccwc" ["file1", "file2"] noFile (.ok []) =
      ⟨"", "multiple filenames provided or unrecognized argument: file2\n", 1⟩ :=
  ((main_usage_error "ccwc" ["file1", "file2"] noFile (.ok [])
    (errMultiple "file2") (by decide)).1).trans (by decide)

/-! ## Lemmas on the order of the counts -/

theorem runesLoop_length_le (fuel : Nat) : ∀ s : List Nat, (runesLoop fuel s).length ≤ s.length := by
  induction fuel with
  | zero => intro s; simp [runesLoop]
  | succ n ih =>
    intro s
    by_cases hs : s = []
    · subst hs; simp [runesLoop]
    · have hlen : 0 < s.length := List.length_pos.2 hs
      have hpos := DecodeRune_size_pos s hs
      have := ih (s.drop (DecodeRune s).2)
      rw [List.length_drop] at this
      simp only [runesLoop, hlen, gt_iff_lt, if_true, List.length_cons]
      omega

theorem runsFrom_le_length {α : Type} (sep : α → Bool) (l : List α) : ∀ inRun : Bool,
    runsFrom sep inRun l ≤ l.length + (if inRun then 1 else 0) := by
  induction l with
  | nil => intro inRun; simp [runsFrom]
  | cons x xs ih =>
    intro inRun
    have h1 := ih false
    have h2 := ih true
    simp only [Bool.false_eq_true, if_false, if_true] at h1 h2
    simp only [runsFrom, List.length_cons]
    split_ifs <;> omega

theorem countRuns_le_length {α : Type} (sep : α → Bool) (l : List α) :
    countRuns sep l ≤ l.length := by
  have := runsFrom_le_length sep l false
  rw [(runsFrom_eq_split sep l).1] at this
  simpa using this

/-- A rune that spans several bytes spans bytes of 0x80 and more. -/
theorem DecodeRune_multi (s : List Nat) (hs : s ≠ []) :
    (DecodeRune s).2 ≤ 4 ∧
    (2 ≤ (DecodeRune s).2 → 0x80 ≤ s.getD 0 0 ∧ 0x80 ≤ s.getD 1 0) ∧
    (3 ≤ (DecodeRune s).2 → 0x80 ≤ s.getD 2 0) ∧
    (4 ≤ (DecodeRune s).2 → 0x80 ≤ s.getD 3 0) := by
  have hlen : 1 ≤ s.length := List.length_pos.2 hs
  unfold DecodeRune
  dsimp only
  generalize s.getD 0 0 = b0
  generalize s.getD 1 0 = b1
  generalize s.getD 2 0 = b2
  generalize s.getD 3 0 = b3
  generalize s.length = n at hlen ⊢
  rw [if_neg (show ¬ n < 1 by omega)]
  have hb : b0 < 0x80 ∨ ((0x80 ≤ b0 ∧ b0 < 0xC2) ∨ 0xF5 ≤ b0) ∨ (0xC2 ≤ b0 ∧ b0 ≤ 0xDF) ∨
      b0 = 0xE0 ∨ ((0xE1 ≤ b0 ∧ b0 ≤ 0xEC) ∨ (0xEE ≤ b0 ∧ b0 ≤ 0xEF)) ∨ b0 = 0xED ∨ b0 = 0xF0 ∨
      (0xF1 ≤ b0 ∧ b0 ≤ 0xF3) ∨ b0 = 0xF4 := by omega
  rcases hb with hb | hb | hb | hb | hb | hb | hb | hb | hb
  · rw [first_as b0 hb]
    norm_num
  · rw [first_xx b0 hb]
    norm_num
  · rw [first_s1 b0 hb]
    norm_num [acceptRanges]
    split_ifs <;> (try dsimp only) <;> omega
  · subst hb
    rw [first_s2]
    norm_num [acceptRanges]
    split_ifs <;> (try dsimp only) <;> omega
  · rw [first_s3 b0 hb]
    norm_num [acceptRanges]
    split_ifs <;> (try dsimp only) <;> omega
  · subst hb
    rw [first_s4]
    norm_num [acceptRanges]
    split_ifs <;> (try dsimp only) <;> omega
  · subst hb
    rw [first_s5]
    norm_num [acceptRanges]
    split_ifs <;> (try dsimp only) <;> omega
  · rw [first_s6 b0 hb]
    norm_num [acceptRanges]
    split_ifs <;> (try dsimp only) <;> omega
  · subst hb
    rw [first_s7]
    norm_num [acceptRanges]
    split_ifs <;> (try dsimp only) <;> omega

theorem newline_take_count (s : List Nat) (hs : s ≠ []) :
    (s.take (DecodeRune s).2).count 0x0A ≤ 1 := by
  obtain ⟨hmax, h2, h3, h4⟩ := DecodeRune_multi s hs
  have hle := DecodeRune_size_le s
  have hpos := DecodeRune_size_pos s hs
  generalize (DecodeRune s).2 = k at *
  rcases s with _ | ⟨b0, _ | ⟨b1, _ | ⟨b2, _ | ⟨b3, t⟩⟩⟩⟩
  · exact absurd rfl hs
  all_goals
    simp only [List.getD_cons_zero, List.getD_cons_succ, List.length_cons, List.length_nil] at *
    interval_cases k <;>
      simp only [List.take_succ_cons, List.take_zero, List.count_cons, List.count_nil,
        beq_iff_eq] <;>
      split_ifs <;> omega

theorem newline_count_le_runes (fuel : Nat) : ∀ s : List Nat, s.length ≤ fuel →
    s.count 0x0A ≤ (Runes s).length := by
  induction fuel with
  | zero =>
    intro s h
    have hs : s = [] := List.length_eq_zero.1 (Nat.le_zero.1 h)
    subst hs
    simp
  | succ n ih =>
    intro s h
    by_cases hs : s = []
    · subst hs; simp
    · have hpos := DecodeRune_size_pos s hs
      have hlen : 0 < s.length := List.length_pos.2 hs
      have hrest := ih (s.drop (DecodeRune s).2) (by rw [List.length_drop]; omega)
      have htake := newline_take_count s hs
      have hsplit : s.count 0x0A =
          (s.take (DecodeRune s).2).count 0x0A + (s.drop (DecodeRune s).2).count 0x0A := by
        rw [← List.count_append, List.take_append_drop]
      rw [Runes_step s hs, List.length_cons, hsplit]
      omega

/-! ## What the manual says -/

/-- The manual holds the sentence on FILE `-` and the sentence on the order
of the counts. -/
theorem manual_sentences (prog : String) :
    (∃ pre post : String,
      manual prog = pre ++ "With no FILE, or when FILE is -, read standard input." ++ post) ∧
    (∃ pre post : String,
      manual prog =
        pre ++ "always in the following order: newline, word, character, byte." ++ post) := by
  constructor
  · refine ⟨prog ++ "\n\nNAME\n" ++ prog ++
      " - print newline, word, and byte counts for each file\n\nSYNOPSIS\n" ++ prog ++
      " [OPTION]... [FILE]...\n\nDESCRIPTION\n" ++
      "Print  newline,  word,  and  byte counts for each FILE, and a total line if more than one FILE is specified.  A word is a non-zero-length sequence of characters delimited by\n" ++
      "white space.\n\n",
      "\n\n" ++
      "The options below may be used to select which counts are printed, always in the following order: newline, word, character, byte.\n\n" ++
      "-c, --bytes\n\t   print the byte counts\n\n" ++
      "-m, --chars\n\t   print the character counts\n\n" ++
      "-l, --lines\n\t   print the newline counts\n\n" ++
      "-w, --words\n\t   print the word counts\n\n" ++
      "-h, --help display this help and exit\n\nAUTHOR\nWritten by Abhishek Pandey.\n", ?_⟩
    simp only [manual, String.append_assoc]
    rfl
  · refine ⟨prog ++ "\n\nNAME\n" ++ prog ++
      " - print newline, word, and byte counts for each file\n\nSYNOPSIS\n" ++ prog ++
      " [OPTION]... [FILE]...\n\nDESCRIPTION\n" ++
      "Print  newline,  word,  and  byte counts for each FILE, and a total line if more than one FILE is specified.  A word is a non-zero-length sequence of characters delimited by\n" ++
      "white space.\n\nWith no FILE, or when FILE is -, read standard input.\n\n" ++
      "The options below may be used to select which counts are printed, ",
      "\n\n" ++
      "-c, --bytes\n\t   print the byte counts\n\n" ++
      "-m, --chars\n\t   print the character counts\n\n" ++
      "-l, --lines\n\t   print the newline counts\n\n" ++
      "-w, --words\n\t   print the word counts\n\n" ++
      "-h, --help display this help and exit\n\nAUTHOR\nWritten by Abhishek Pandey.\n", ?_⟩
    simp only [manual, String.append_assoc]
    rfl

/-! ## Claims on the manual -/

/-- C13, the code at the failing input: the manual of the program says that
the counts are printed in the order newline, word, character, byte; for the
buffer `one two three\n` (14 bytes, 14 characters, 3 words, 1 newline) with
all four selectors set, runCmd writes the byte count first and the newline
count last. -/
theorem runCmd_order_against_manual :
    (∃ pre post : String,
      manual "ccwc" =
        pre ++ "always in the following order: newline, word, character, byte." ++ post) ∧
    lineCount (asciiBytes "one two three\n") = 1 ∧ wordCount (asciiBytes "one two three\n") = 3 ∧
    charCount (asciiBytes "one two three\n") = 14 ∧ byteCount (asciiBytes "one two three\n") = 14 ∧
    runCmd "ccwc" noFile (.ok (asciiBytes "one two three\n")) ⟨"", false, true, true, true, true⟩ =
      ("14\t14\t3\t1\t\n", none) :=
  ⟨(manual_sentences "ccwc").2, by decide, by decide, by decide, by decide, by decide⟩

/-- C14, the code at the failing input: the manual of the program says that
FILE `-` reads standard input; on the tokens `-w -`, with `hello world\n` on
the default stream and no file named `-`, main prints no count and exits with
code 2, while on the token `-w` alone it prints the word count of the
stream. -/
theorem main_dash_is_a_file :
    (∃ pre post : String,
      manual "ccwc" = pre ++ "With no FILE, or when FILE is -, read standard input." ++ post) ∧
    parseArgs ["-w", "-"] = .ok ⟨"-", false, false, false, true, false⟩ ∧
    main "ccwc" ["-w", "-"] noFile (.ok (asciiBytes "hello world\n")) =
      ⟨"", "error reading from file -: open -: no such file or directory\n", 2⟩ ∧
    main "ccwc" ["-w"] noFile (.ok (asciiBytes "hello world\n")) = ⟨"2\t\n", "", 0⟩ :=
  ⟨(manual_sentences "ccwc").1, by decide, by decide, by decide⟩

/-- C15: with printManual set, runCmd writes the manual and nothing else and
returns no error, whatever the file path, the file system and the default
stream are. -/
theorem runCmd_manual (prog : String) (readFile : String → Except String (List Nat))
    (r : Except String (List Nat)) (c : config) (hm : c.printManual = true) :
    runCmd prog readFile r c = (manual prog, none) := by
  simp only [runCmd, hm, if_true]

/-- C15, witness: a file path that cannot be read and a default stream that
fails. -/
theorem runCmd_manual_witness :
    runCmd "ccwc" noFile (.error "closed") ⟨"missing", true, false, false, false, false⟩ =
      (manual "ccwc", none) :=
  runCmd_manual "ccwc" noFile (.error "closed") ⟨"missing", true, false, false, false, false⟩ rfl

/-! ## Claims on read errors -/

/-- C16: with printManual false, when reading the input source fails with
the error `cause` (the named file when filePath is non-empty, the default
stream otherwise), runCmd writes nothing to standard output and returns an
error whose message ends with `cause`; main, on every token list that parses
to this configuration, writes nothing to standard output, the message to
standard error, and exits with code 2. -/
theorem runCmd_read_error (prog : String) (readFile : String → Except String (List Nat))
    (r : Except String (List Nat)) (c : config) (cause : String) (hm : c.printManual = false)
    (hfail : (c.filePath ≠ "" ∧ readFile c.filePath = .error cause) ∨
      (c.filePath = "" ∧ r = .error cause)) :
    runCmd prog readFile r c =
      ("", some ((if c.filePath ≠ "" then "error reading from file " ++ c.filePath ++ ": "
        else "error reading from stdin: ") ++ cause)) ∧
    ∀ args : List String, parseArgs args = .ok c →
      main prog args readFile r =
        ⟨"", (if c.filePath ≠ "" then "error reading from file " ++ c.filePath ++ ": "
          else "error reading from stdin: ") ++ cause ++ "\n", 2⟩ := by
  have hrun : runCmd prog readFile r c =
      ("", some ((if c.filePath ≠ "" then "error reading from file " ++ c.filePath ++ ": "
        else "error reading from stdin: ") ++ cause)) := by
    rcases hfail with ⟨hp, hr⟩ | ⟨hp, hr⟩
    · simp only [runCmd, hm, Bool.false_eq_true, if_false, readInput, hp, ne_eq,
        not_false_eq_true, if_true, hr]
    · simp only [runCmd, hm, Bool.false_eq_true, if_false, readInput, hp, ne_eq,
        not_true_eq_false, hr]
  refine ⟨hrun, ?_⟩
  intro args hok
  simp only [main, hok, hrun]

/-- C16, witness: the file `missing.txt` is not there. -/
theorem runCmd_read_error_witness :
    runCmd "ccwc" noFile (.ok []) ⟨"missing.txt", false, false, false, true, false⟩ =
      ("", some "error reading from file missing.txt: open missing.txt: no such file or directory") ∧
    main "ccwc" ["-w", "missing.txt"] noFile (.ok []) =
      ⟨"", "error reading from file missing.txt: open missing.txt: no such file or directory\n", 2⟩ :=
  have h := runCmd_read_error "ccwc" noFile (.ok []) ⟨"missing.txt", false, false, false, true, false⟩
    "open missing.txt: no such file or directory" rfl (Or.inl ⟨by decide, rfl⟩)
  ⟨h.1.trans (by decide), (h.2 ["-w", "missing.txt"] (by decide)).trans (by decide)⟩

/-! ## Claims on the relations between the counts -/

/-- C19: for a buffer of bytes below 0x80, the word count is the number of
maximal runs of bytes that are none of space, tab, newline, vertical tab,
form feed and carriage return, and the character count is the byte count. -/
theorem counts_ascii (B : List Nat) (h : ∀ b ∈ B, b < 0x80) :
    wordCount B = countRuns isSixSpace B ∧ charCount B = byteCount B := by
  constructor
  · rw [wordCount, lenFields_eq_runs, Runes_ascii B h]
    exact countRuns_congr _ _ B (fun x hx => IsSpace_ascii x (h x hx))
  · rw [charCount, byteCount, Runes_ascii B h]

/-- C19, witness: the buffer `  hi  there `. -/
theorem counts_ascii_witness :
    wordCount (asciiBytes "  hi  there ") = countRuns isSixSpace (asciiBytes "  hi  there ") ∧
    charCount (asciiBytes "  hi  there ") = byteCount (asciiBytes "  hi  there ") :=
  counts_ascii (asciiBytes "  hi  there ") (by decide)

/-- C20: for every buffer, the word count and the line count are at most the
character count, and the character count is at most the byte count. -/
theorem counts_ordered (B : List Nat) :
    wordCount B ≤ charCount B ∧ lineCount B ≤ charCount B ∧ charCount B ≤ byteCount B := by
  refine ⟨?_, ?_, ?_⟩
  · rw [wordCount, lenFields_eq_runs, charCount]
    exact countRuns_le_length IsSpace (Runes B)
  · rw [lineCount, lineCount_foldl B 0, Nat.zero_add, charCount]
    exact newline_count_le_runes B.length B (Nat.le_refl _)
  · exact runesLoop_length_le B.length B

/-! ## The directive scanner always moves forward -/

/-- The body of `doVerb` is the chain of its four steps. -/
theorem doVerb_stages (l : List Char) :
    doVerb l =
      verbStage
        (precStage (argNumber 0 (skipFlags l) 0 true).argNum
          (widthStage (argNumber 0 (skipFlags l) 0 true))).1
        (indexStage (argNumber 0 (skipFlags l) 0 true).argNum
          (precStage (argNumber 0 (skipFlags l) 0 true).argNum
            (widthStage (argNumber 0 (skipFlags l) 0 true)))) := rfl

theorem skipFlags_length (l : List Char) : (skipFlags l).length ≤ l.length := by
  induction l with
  | nil => simp [skipFlags]
  | cons c cs ih =>
    simp only [skipFlags]
    split_ifs
    · simp only [List.length_cons]; omega
    · exact Nat.le_refl _

theorem parsenum_length (l : List Char) : ∀ (num : Nat) (isnum : Bool),
    (parsenum num isnum l).2.2.length ≤ l.length := by
  induction l with
  | nil => intro num isnum; simp [parsenum]
  | cons c cs ih =>
    intro num isnum
    simp only [parsenum]
    split_ifs
    · simp
    · have := ih (num * 10 + (c.toNat - '0'.toNat)) true
      simp only [List.length_cons]; omega
    · exact Nat.le_refl _

theorem argNumber_length (argNum : Nat) (rest : List Char) (numArgs : Nat) (good : Bool) :
    (argNumber argNum rest numArgs good).rest.length ≤ rest.length := by
  unfold argNumber
  split
  · exact Nat.le_refl _
  · split_ifs with h1
    · exact Nat.le_refl _
    · dsimp only
      split_ifs <;> simp only [List.length_drop] <;> omega

theorem widthStage_length (a1 : ArgPos) : (widthStage a1).2.1.length ≤ a1.rest.length := by
  unfold widthStage
  split
  · rename_i tl h
    rw [h]
    simp only [List.length_cons]; omega
  · exact parsenum_length _ _ _

theorem precStage_length (argNum : Nat) (w : String × List Char × Bool × Bool) :
    (precStage argNum w).2.1.length ≤ w.2.1.length := by
  unfold precStage
  split
  · rename_i tl h
    rw [h]
    have ha := argNumber_length argNum tl 0 (if w.2.2.1 then false else w.2.2.2)
    dsimp only
    split
    · rename_i tl2 h2
      rw [h2] at ha
      simp only [List.length_cons] at ha ⊢
      omega
    · have hp := parsenum_length
        (argNumber argNum tl 0 (if w.2.2.1 then false else w.2.2.2)).rest 0 false
      simp only [List.length_cons]
      omega
  · exact Nat.le_refl _

theorem indexStage_length (argNum : Nat) (q : String × List Char × Bool × Bool) :
    (indexStage argNum q).rest.length ≤ q.2.1.length := by
  unfold indexStage
  split_ifs
  · exact argNumber_length _ _ _ _
  · exact Nat.le_refl _

theorem verbStage_length (written : String) (a3 : ArgPos) :
    (verbStage written a3).2.length ≤ a3.rest.length := by
  unfold verbStage
  split
  · simp
  · rename_i verb tl h
    rw [h]
    split_ifs <;> simp

/-- A directive never gives back more of the format than it was given. -/
theorem doVerb_length (l : List Char) : (doVerb l).2.length ≤ l.length := by
  rw [doVerb_stages]
  have h1 := skipFlags_length l
  have h2 := argNumber_length 0 (skipFlags l) 0 true
  have h3 := widthStage_length (argNumber 0 (skipFlags l) 0 true)
  have h4 := precStage_length (argNumber 0 (skipFlags l) 0 true).argNum
    (widthStage (argNumber 0 (skipFlags l) 0 true))
  have h5 := indexStage_length (argNumber 0 (skipFlags l) 0 true).argNum
    (precStage (argNumber 0 (skipFlags l) 0 true).argNum
      (widthStage (argNumber 0 (skipFlags l) 0 true)))
  have h6 := verbStage_length
    (precStage (argNumber 0 (skipFlags l) 0 true).argNum
      (widthStage (argNumber 0 (skipFlags l) 0 true))).1
    (indexStage (argNumber 0 (skipFlags l) 0 true).argNum
      (precStage (argNumber 0 (skipFlags l) 0 true).argNum
        (widthStage (argNumber 0 (skipFlags l) 0 true))))
  omega

theorem dropWhile_length {α : Type} (p : α → Bool) (l : List α) :
    (l.dropWhile p).length ≤ l.length := by
  induction l with
  | nil => simp
  | cons x xs ih =>
    simp only [List.dropWhile_cons]
    split_ifs
    · simp only [List.length_cons]; omega
    · exact Nat.le_refl _

/-- The loop of the directive scanner gives the same text for every fuel
above the length of the format: the fuel of `printfNoArgs` never runs out. -/
theorem doPrintfLoop_fuel (fuel1 : Nat) : ∀ (fuel2 : Nat) (buf : String) (l : List Char),
    l.length < fuel1 → l.length < fuel2 →
    doPrintfLoop fuel1 buf l = doPrintfLoop fuel2 buf l := by
  induction fuel1 with
  | zero => intro fuel2 buf l h1 _; omega
  | succ n ih =>
    intro fuel2 buf l h1 h2
    cases fuel2 with
    | zero => omega
    | succ m =>
      simp only [doPrintfLoop]
      have hd := dropWhile_length (fun ch => decide (ch ≠ '%')) l
      cases hdw : l.dropWhile (fun ch => decide (ch ≠ '%')) with
      | nil => rfl
      | cons c tl =>
        rw [hdw] at hd
        simp only [List.length_cons] at hd
        have hv := doVerb_length tl
        exact ih m _ _ (by omega) (by omega)

end Ccwc
